import Mathlib

/-!
Verification of the reactive spreadsheet engine (`src/util.js` and the
`Cell`/`Sheet` classes of the main source file) via a shallow embedding.

Conventions of the embedding:
* JS strings are modelled as `List Char` (wrapped in `String` at the edges);
  all text functions are ASCII-faithful (the source only ever manipulates
  ASCII formula text).
* JS regex operations (`\b`-bounded search and replace) are embedded as
  character-level scanners that implement the same word-boundary semantics.
* The mutable `Sheet`/`Cell` objects are embedded as an insertion-ordered
  association list threaded through every operation in the source's
  statement order.  JS `Set`s are insertion-ordered duplicate-free lists.
* Recursions that terminate in JS by exhaustion of the finite grid
  (`_hasCircularDependency`, `descendantObservers`, `_evaluateValue`)
  take an explicit fuel; every top-level entry point supplies a fuel that
  is provably larger than the recursion can consume.
-/

set_option maxRecDepth 10000

namespace SpreadsheetSpec

/-! ## Character utilities (ASCII case handling, JS `\w` word characters) -/

/-- The lowercase ASCII letters, i.e. the characters affected by
JS `toUpperCase` in the ASCII range handled by this code base. -/
def lowerLetters : List Char :=
  ['a', 'b', 'c', 'd', 'e', 'f', 'g', 'h', 'i', 'j', 'k', 'l', 'm',
   'n', 'o', 'p', 'q', 'r', 's', 't', 'u', 'v', 'w', 'x', 'y', 'z']

/-- The uppercase ASCII letters. -/
def upperLetters : List Char :=
  ['A', 'B', 'C', 'D', 'E', 'F', 'G', 'H', 'I', 'J', 'K', 'L', 'M',
   'N', 'O', 'P', 'Q', 'R', 'S', 'T', 'U', 'V', 'W', 'X', 'Y', 'Z']

/-- Lower-to-upper case table for ASCII letters. -/
def caseTable : List (Char × Char) :=
  lowerLetters.zip upperLetters

/-- ASCII `toUpperCase` on one character (embeds JS `String.toUpperCase`,
which the source only ever applies to ASCII formula text). -/
def upChar (c : Char) : Char :=
  match caseTable.find? (fun p => p.1 = c) with
  | some p => p.2
  | none => c

/-- ASCII `toLowerCase` on one character. -/
def downChar (c : Char) : Char :=
  match caseTable.find? (fun p => p.2 = c) with
  | some p => p.1
  | none => c

/-- ASCII `toUpperCase` on a character list. -/
def upStr (s : List Char) : List Char := s.map upChar

/-- ASCII `toLowerCase` on a character list. -/
def downStr (s : List Char) : List Char := s.map downChar

/-- The decimal digit characters. -/
def digitChars : List Char :=
  ['0', '1', '2', '3', '4', '5', '6', '7', '8', '9']

/-- Decimal digit test (JS `\d`). -/
def isDigitChar (c : Char) : Bool := decide (c ∈ digitChars)

/-- ASCII letter test (the `[a-z]` of the source's ref regexes with the
`i` flag, i.e. either case). -/
def isLetterChar (c : Char) : Bool :=
  decide (c ∈ lowerLetters) || decide (c ∈ upperLetters)

/-- Uppercase ASCII letter test. -/
def isUpperLetter (c : Char) : Bool := decide (c ∈ upperLetters)

/-- JS `\w` word character: letters, digits and underscore.  Word
boundaries `\b` of the source's regexes sit exactly between a word
character and a non-word character (or the ends of the string). -/
def isWordChar (c : Char) : Bool :=
  isLetterChar c || isDigitChar c || decide (c = '_')

/-! ## Column labels (`util.js`: `colIndexFromLabel`, `colAsLabel`) -/

/-- `_colIndexFromSingleLetter`: converts `A` to 1 … `Z` to 26
(`colSingleRef.charCodeAt() - "A".charCodeAt() + 1`). -/
def colIndexFromSingleLetter (c : Char) : Nat :=
  c.toNat - 'A'.toNat + 1

/-- `colIndexFromLabel`: converts a column label to its 1-based index by
the positional formula of the source
(`acc + value(letter) * 26 ^ (len - i - 1)`). -/
def colIndexFromLabel (s : List Char) : Nat :=
  (List.zip (List.range s.length) s).foldl
    (fun acc p => acc + colIndexFromSingleLetter p.2 * 26 ^ (s.length - p.1 - 1)) 0

/-- `_colSingleLetter`: converts 1 to `A` … 26 to `Z`
(`String.fromCharCode(colIndex - 1 + "A".charCodeAt(0))`). -/
def colSingleLetter (n : Nat) : Char :=
  Char.ofNat (n - 1 + 'A'.toNat)

/-- The loop of `colAsLabel`: the JS loop runs with `colIndex >= 0`,
prepending `_colSingleLetter(colIndex % 26 + 1)` and stepping to
`trunc(colIndex / 26) - 1`; it exits once that step goes negative, i.e.
once `colIndex / 26 = 0`.  The first argument is structural fuel; the
caller passes `n`, which bounds the (logarithmic) iteration count, so
the fuel-exhaustion branch is unreachable for every `n ≥ 1`. -/
def colAsLabelAux : Nat → Nat → List Char → List Char
  | 0, _, acc => acc
  | fuel + 1, m, acc =>
    if m / 26 = 0 then colSingleLetter (m % 26 + 1) :: acc
    else colAsLabelAux fuel (m / 26 - 1) (colSingleLetter (m % 26 + 1) :: acc)

/-- `colAsLabel` on a numeric column index: converts 1 to `A`, …,
26 to `Z`, 27 to `AA`, etc.  (The string-argument passthrough branch of
the source is irrelevant to numeric inputs.) -/
def colAsLabel (n : Nat) : List Char :=
  colAsLabelAux n (n - 1) []

/-- Horner form of the label value, used to reason about
`colIndexFromLabel`'s positional-power formula. -/
def hornerCol (s : List Char) : Nat :=
  s.foldl (fun acc c => acc * 26 + colIndexFromSingleLetter c) 0

theorem hornerCol_general (s : List Char) (a : Nat) :
    s.foldl (fun acc c => acc * 26 + colIndexFromSingleLetter c) a
      = a * 26 ^ s.length + hornerCol s := by
  induction s generalizing a with
  | nil => simp [hornerCol]
  | cons c t ih =>
    simp only [List.foldl_cons, hornerCol, List.length_cons]
    rw [ih, ih (0 * 26 + colIndexFromSingleLetter c)]
    ring

theorem hornerCol_append (s t : List Char) :
    hornerCol (s ++ t) = hornerCol s * 26 ^ t.length + hornerCol t := by
  unfold hornerCol
  rw [List.foldl_append, hornerCol_general]
  rfl

theorem hornerCol_cons (c : Char) (s : List Char) :
    hornerCol (c :: s)
      = colIndexFromSingleLetter c * 26 ^ s.length + hornerCol s := by
  have h : c :: s = [c] ++ s := rfl
  rw [h, hornerCol_append]
  simp [hornerCol]

theorem foldl_add_init (g : Nat × Char → Nat) :
    ∀ (l : List (Nat × Char)) (a : Nat),
      l.foldl (fun acc p => acc + g p) a = a + l.foldl (fun acc p => acc + g p) 0 := by
  intro l
  induction l with
  | nil => simp
  | cons p r ih =>
    intro a
    simp only [List.foldl_cons]
    rw [ih (a + g p), ih (0 + g p)]
    ring

theorem colIndexFromLabel_cons (c : Char) (t : List Char) :
    colIndexFromLabel (c :: t)
      = colIndexFromSingleLetter c * 26 ^ t.length + colIndexFromLabel t := by
  unfold colIndexFromLabel
  simp only [List.length_cons, List.range_succ_eq_map, List.zip_cons_cons,
    List.foldl_cons, List.zip_map_left, List.foldl_map, Prod.map_fst, Prod.map_snd,
    id_eq, Nat.succ_eq_add_one]
  have harith : ∀ k : Nat, t.length + 1 - (k + 1) - 1 = t.length - k - 1 := by omega
  simp only [harith]
  rw [foldl_add_init (fun p => colIndexFromSingleLetter p.2 * 26 ^ (t.length - p.1 - 1))]
  simp

theorem colIndexFromLabel_eq_hornerCol (s : List Char) :
    colIndexFromLabel s = hornerCol s := by
  induction s with
  | nil => rfl
  | cons c t ih => rw [hornerCol_cons, colIndexFromLabel_cons, ih]

theorem colIndexFromSingleLetter_colSingleLetter :
    ∀ d, d < 27 → 1 ≤ d → colIndexFromSingleLetter (colSingleLetter d) = d := by
  decide

theorem colAsLabelAux_append (fuel : Nat) :
    ∀ m acc, colAsLabelAux fuel m acc = colAsLabelAux fuel m [] ++ acc := by
  induction fuel with
  | zero => intro m acc; simp [colAsLabelAux]
  | succ fuel ih =>
    intro m acc
    by_cases h : m / 26 = 0
    · simp [colAsLabelAux, h]
    · simp only [colAsLabelAux, h, if_false]
      rw [ih (m / 26 - 1) (colSingleLetter (m % 26 + 1) :: acc),
        ih (m / 26 - 1) (colSingleLetter (m % 26 + 1) :: [])]
      simp

theorem hornerCol_colAsLabelAux (fuel : Nat) :
    ∀ m, m < fuel → hornerCol (colAsLabelAux fuel m []) = m + 1 := by
  induction fuel with
  | zero => intro m hm; omega
  | succ fuel ih =>
    intro m hm
    by_cases h : m / 26 = 0
    · simp only [colAsLabelAux, h, if_true]
      have hmlt : m < 26 := by omega
      have hmod : m % 26 = m := Nat.mod_eq_of_lt hmlt
      rw [hmod, hornerCol_cons]
      simp [colIndexFromSingleLetter_colSingleLetter (m + 1) (by omega) (by omega),
        hornerCol]
    · simp only [colAsLabelAux, h, if_false]
      have hge : 26 ≤ m := by omega
      have hlt : m / 26 - 1 < fuel := by
        have h1 : m / 26 ≤ m / 2 := by
          apply Nat.div_le_div_left (by omega) (by omega)
        have h2 : m / 2 < m := Nat.div_lt_self (by omega) (by omega)
        omega
      rw [colAsLabelAux_append, hornerCol_append, ih _ hlt]
      have hmod : colIndexFromSingleLetter (colSingleLetter (m % 26 + 1)) = m % 26 + 1 :=
        colIndexFromSingleLetter_colSingleLetter (m % 26 + 1)
          (by have := Nat.mod_lt m (show 0 < 26 by omega); omega) (by omega)
      have h1 : hornerCol [colSingleLetter (m % 26 + 1)] = m % 26 + 1 := by
        rw [hornerCol_cons, hmod]
        simp [hornerCol]
      rw [h1]
      simp only [List.length_cons, List.length_nil, pow_one, Nat.zero_add]
      have h2 : m / 26 - 1 + 1 = m / 26 := by omega
      rw [h2]
      omega

theorem colIndexFromLabel_colAsLabel (n : Nat) (h : 1 ≤ n) :
    colIndexFromLabel (colAsLabel n) = n := by
  rw [colIndexFromLabel_eq_hornerCol, colAsLabel, hornerCol_colAsLabelAux n (n - 1)
    (by omega)]
  omega

theorem colAsLabelAux_upperLetters (fuel : Nat) :
    ∀ m acc, (∀ c ∈ acc, isUpperLetter c = true) →
      ∀ c ∈ colAsLabelAux fuel m acc, isUpperLetter c = true := by
  induction fuel with
  | zero => intro m acc hacc; simpa [colAsLabelAux] using hacc
  | succ fuel ih =>
    intro m acc hacc
    have hletter : isUpperLetter (colSingleLetter (m % 26 + 1)) = true := by
      have hlt : m % 26 < 26 := Nat.mod_lt m (by omega)
      have hfin : ∀ d, d < 27 → 1 ≤ d → isUpperLetter (colSingleLetter d) = true := by
        decide
      exact hfin (m % 26 + 1) (by omega) (by omega)
    have hacc' : ∀ c ∈ colSingleLetter (m % 26 + 1) :: acc, isUpperLetter c = true := by
      intro c hc
      rcases List.mem_cons.mp hc with rfl | hmem
      · exact hletter
      · exact hacc c hmem
    by_cases h : m / 26 = 0
    · simp only [colAsLabelAux, h, if_true]
      exact hacc'
    · simp only [colAsLabelAux, h, if_false]
      exact ih (m / 26 - 1) _ hacc'

theorem colAsLabel_upperLetters (n : Nat) :
    ∀ c ∈ colAsLabel n, isUpperLetter c = true :=
  colAsLabelAux_upperLetters n (n - 1) [] (by simp)

theorem colAsLabelAux_ne_nil_of_acc (fuel : Nat) :
    ∀ m acc, acc ≠ [] → colAsLabelAux fuel m acc ≠ [] := by
  induction fuel with
  | zero => intro m acc hacc; simpa [colAsLabelAux] using hacc
  | succ fuel ih =>
    intro m acc hacc
    by_cases h : m / 26 = 0
    · simp [colAsLabelAux, h]
    · simp only [colAsLabelAux, h, if_false]
      exact ih (m / 26 - 1) _ (by simp)

theorem colAsLabel_ne_nil (n : Nat) (hn : 1 ≤ n) : colAsLabel n ≠ [] := by
  unfold colAsLabel
  cases n with
  | zero => omega
  | succ k =>
    simp only [Nat.add_sub_cancel]
    by_cases h : k / 26 = 0
    · simp [colAsLabelAux, h]
    · simp only [colAsLabelAux, h, if_false]
      exact colAsLabelAux_ne_nil_of_acc k _ _ (by simp)

/-! ## Decimal row numbers (the `String(row)` part of `asRef` and the
`Number(match[2])` part of `_rowColFromRef`) -/

/-- Decimal rendering with structural fuel (the caller passes `n + 1`,
which bounds the digit count, so exhaustion is unreachable). -/
def natToCharsAux : Nat → Nat → List Char
  | 0, _ => []
  | fuel + 1, n =>
    if n < 10 then [Char.ofNat (n + '0'.toNat)]
    else natToCharsAux fuel (n / 10) ++ [Char.ofNat (n % 10 + '0'.toNat)]

/-- Decimal rendering of a natural number, as JS `String(n)` produces for
non-negative integers. -/
def natToChars (n : Nat) : List Char := natToCharsAux (n + 1) n

/-- Decimal value of a digit string, as JS `Number` computes on the
digit-only capture group of the ref regex. -/
def digitsVal (s : List Char) : Nat :=
  s.foldl (fun acc c => acc * 10 + (c.toNat - '0'.toNat)) 0

theorem digitsVal_general (s : List Char) (a : Nat) :
    s.foldl (fun acc c => acc * 10 + (c.toNat - '0'.toNat)) a
      = a * 10 ^ s.length + digitsVal s := by
  induction s generalizing a with
  | nil => simp [digitsVal]
  | cons c t ih =>
    simp only [List.foldl_cons, digitsVal, List.length_cons]
    rw [ih, ih (0 * 10 + (c.toNat - '0'.toNat))]
    ring

theorem digitsVal_append (s t : List Char) :
    digitsVal (s ++ t) = digitsVal s * 10 ^ t.length + digitsVal t := by
  unfold digitsVal
  rw [List.foldl_append, digitsVal_general]
  rfl

theorem digitsVal_natToCharsAux (fuel : Nat) :
    ∀ n, n < fuel → digitsVal (natToCharsAux fuel n) = n := by
  induction fuel with
  | zero => intro n hn; omega
  | succ fuel ih =>
    intro n hn
    by_cases h : n < 10
    · simp only [natToCharsAux, h, if_true]
      have hfin : ∀ d, d < 10 → digitsVal [Char.ofNat (d + '0'.toNat)] = d := by decide
      exact hfin n h
    · simp only [natToCharsAux, h, if_false]
      have hlt : n / 10 < fuel := by
        have := Nat.div_lt_self (show 0 < n by omega) (show 1 < 10 by omega)
        omega
      rw [digitsVal_append, ih (n / 10) hlt]
      have hm : n % 10 < 10 := Nat.mod_lt n (by omega)
      have hd : ∀ d, d < 10 → digitsVal [Char.ofNat (d + '0'.toNat)] = d := by decide
      simp only [List.length_cons, List.length_nil, hd (n % 10) hm]
      have := Nat.div_add_mod n 10
      omega

theorem digitsVal_natToChars (n : Nat) : digitsVal (natToChars n) = n :=
  digitsVal_natToCharsAux (n + 1) n (by omega)

theorem natToCharsAux_digits (fuel : Nat) :
    ∀ n, ∀ c ∈ natToCharsAux fuel n, isDigitChar c = true := by
  induction fuel with
  | zero => intro n c hc; simp [natToCharsAux] at hc
  | succ fuel ih =>
    intro n c hc
    have hfin : ∀ d, d < 10 → isDigitChar (Char.ofNat (d + '0'.toNat)) = true := by decide
    by_cases h : n < 10
    · simp only [natToCharsAux, h, if_true] at hc
      simp only [List.mem_cons, List.not_mem_nil, or_false] at hc
      rw [hc]; exact hfin n h
    · simp only [natToCharsAux, h, if_false] at hc
      rcases List.mem_append.mp hc with h1 | h2
      · exact ih (n / 10) c h1
      · simp only [List.mem_cons, List.not_mem_nil, or_false] at h2
        have hm : n % 10 < 10 := Nat.mod_lt n (by omega)
        rw [h2]; exact hfin (n % 10) hm

theorem natToChars_digits (n : Nat) :
    ∀ c ∈ natToChars n, isDigitChar c = true :=
  natToCharsAux_digits (n + 1) n

theorem natToChars_ne_nil (n : Nat) : natToChars n ≠ [] := by
  unfold natToChars natToCharsAux
  by_cases h : n < 10
  · simp [h]
  · simp [h]

/-! ## References (`asRef`, `_rowColFromRef`, `asCoords`) -/

/-- `asRef` on structured coordinates: `colAsLabel(col) + String(row)`. -/
def asRef (row col : Nat) : List Char :=
  colAsLabel col ++ natToChars row

/-- `_rowColFromRef`: uppercases the ref and matches `^([A-Z]+)(\d+)$`;
the result is `(row, col)` with the column given by `colIndexFromLabel`
of the letter group and the row by the numeric value of the digit group.
`none` models the JS `TypeError` raised on a non-matching ref. -/
def rowColFromRef (s : List Char) : Option (Nat × Nat) :=
  if (upStr s).takeWhile isUpperLetter ≠ [] ∧ (upStr s).dropWhile isUpperLetter ≠ [] ∧
      ((upStr s).dropWhile isUpperLetter).all isDigitChar then
    some (digitsVal ((upStr s).dropWhile isUpperLetter),
      colIndexFromLabel ((upStr s).takeWhile isUpperLetter))
  else none

/-- `asCoords` on a ref string, with a default for the unreachable
non-matching case (the JS code would throw there; every call site passes
a syntactically valid ref token). -/
def asCoordsD (s : List Char) : Nat × Nat :=
  (rowColFromRef s).getD (1, 1)

/-! ### Character-class facts (proved by finite enumeration) -/

theorem upChar_of_not_lower {c : Char} (h : c ∉ lowerLetters) : upChar c = c := by
  unfold upChar
  have hnone : caseTable.find? (fun p => p.1 = c) = none := by
    rw [List.find?_eq_none]
    intro p hp
    have hkeys : ∀ q ∈ caseTable, q.1 ∈ lowerLetters := by decide
    simp only [decide_eq_true_eq]
    intro heq
    exact h (heq ▸ hkeys p hp)
  rw [hnone]

theorem upper_not_lower {c : Char} (h : isUpperLetter c = true) : c ∉ lowerLetters := by
  have hmem : c ∈ upperLetters := by
    simpa [isUpperLetter] using h
  have : ∀ d ∈ upperLetters, d ∉ lowerLetters := by decide
  exact this c hmem

theorem digit_not_lower {c : Char} (h : isDigitChar c = true) : c ∉ lowerLetters := by
  have hmem : c ∈ digitChars := by simpa [isDigitChar] using h
  have : ∀ d ∈ digitChars, d ∉ lowerLetters := by decide
  exact this c hmem

theorem digit_not_upper {c : Char} (h : isDigitChar c = true) : isUpperLetter c = false := by
  have hmem : c ∈ digitChars := by simpa [isDigitChar] using h
  have : ∀ d ∈ digitChars, isUpperLetter d = false := by decide
  exact this c hmem

theorem digit_not_letter {c : Char} (h : isDigitChar c = true) : isLetterChar c = false := by
  have hmem : c ∈ digitChars := by simpa [isDigitChar] using h
  have : ∀ d ∈ digitChars, isLetterChar d = false := by decide
  exact this c hmem

theorem upper_is_letter {c : Char} (h : isUpperLetter c = true) : isLetterChar c = true := by
  have hmem : c ∈ upperLetters := by simpa [isUpperLetter] using h
  have : ∀ d ∈ upperLetters, isLetterChar d = true := by decide
  exact this c hmem

theorem upper_is_word {c : Char} (h : isUpperLetter c = true) : isWordChar c = true := by
  simp [isWordChar, upper_is_letter h]

theorem digit_is_word {c : Char} (h : isDigitChar c = true) : isWordChar c = true := by
  simp [isWordChar, h]

theorem upper_ne_colon {c : Char} (h : isUpperLetter c = true) : c ≠ ':' := by
  have hmem : c ∈ upperLetters := by simpa [isUpperLetter] using h
  have : ∀ d ∈ upperLetters, d ≠ ':' := by decide
  exact this c hmem

theorem digit_ne_colon {c : Char} (h : isDigitChar c = true) : c ≠ ':' := by
  have hmem : c ∈ digitChars := by simpa [isDigitChar] using h
  have : ∀ d ∈ digitChars, d ≠ ':' := by decide
  exact this c hmem

/-! ### Generic takeWhile/dropWhile helpers -/

theorem takeWhile_append_all {p : Char → Bool} :
    ∀ (a b : List Char), (∀ x ∈ a, p x = true) →
      (a ++ b).takeWhile p = a ++ b.takeWhile p := by
  intro a
  induction a with
  | nil => intro b _; simp
  | cons c t ih =>
    intro b h
    have hc : p c = true := h c (by simp)
    simp only [List.cons_append, List.takeWhile_cons, hc, if_true]
    rw [ih b (fun x hx => h x (by simp [hx]))]

theorem dropWhile_append_all {p : Char → Bool} :
    ∀ (a b : List Char), (∀ x ∈ a, p x = true) →
      (a ++ b).dropWhile p = b.dropWhile p := by
  intro a
  induction a with
  | nil => intro b _; simp
  | cons c t ih =>
    intro b h
    have hc : p c = true := h c (by simp)
    simp only [List.cons_append, List.dropWhile_cons, hc, if_true]
    exact ih b (fun x hx => h x (by simp [hx]))

theorem takeWhile_eq_nil_of_head {p : Char → Bool} {c : Char} {t : List Char}
    (h : p c = false) : (c :: t).takeWhile p = [] := by
  simp [List.takeWhile_cons, h]

theorem dropWhile_eq_self_of_head {p : Char → Bool} {c : Char} {t : List Char}
    (h : p c = false) : (c :: t).dropWhile p = c :: t := by
  simp [List.dropWhile_cons, h]

/-! ### Ref parse/print round trip -/

theorem upStr_fix {s : List Char} (h : ∀ x ∈ s, x ∉ lowerLetters) :
    upStr s = s := by
  unfold upStr
  calc s.map upChar = s.map id := List.map_congr_left
        (fun x hx => upChar_of_not_lower (h x hx))
    _ = s := List.map_id s

theorem upStr_asRef (r c : Nat) : upStr (asRef r c) = asRef r c := by
  apply upStr_fix
  intro x hx
  rcases List.mem_append.mp hx with h1 | h2
  · exact upper_not_lower (colAsLabel_upperLetters c x h1)
  · exact digit_not_lower (natToChars_digits r x h2)

theorem rowColFromRef_asRef (r c : Nat) (_hr : 1 ≤ r) (hc : 1 ≤ c) :
    rowColFromRef (asRef r c) = some (r, c) := by
  unfold rowColFromRef
  rw [upStr_asRef]
  unfold asRef
  have hup : ∀ x ∈ colAsLabel c, isUpperLetter x = true := colAsLabel_upperLetters c
  have hdigits : ∀ x ∈ natToChars r, isDigitChar x = true := natToChars_digits r
  have hdig_nil : (natToChars r).takeWhile isUpperLetter = [] := by
    cases hne : natToChars r with
    | nil => exact absurd hne (natToChars_ne_nil r)
    | cons d t =>
      apply takeWhile_eq_nil_of_head
      exact digit_not_upper (hdigits d (by rw [hne]; simp))
  have hdig_self : (natToChars r).dropWhile isUpperLetter = natToChars r := by
    cases hne : natToChars r with
    | nil => exact absurd hne (natToChars_ne_nil r)
    | cons d t =>
      apply dropWhile_eq_self_of_head
      exact digit_not_upper (hdigits d (by rw [hne]; simp))
  rw [takeWhile_append_all _ _ hup, dropWhile_append_all _ _ hup, hdig_nil, hdig_self]
  have hcond : (colAsLabel c ++ [] ≠ [] ∧ natToChars r ≠ [] ∧
      (natToChars r).all isDigitChar) := by
    refine ⟨by simp [colAsLabel_ne_nil c hc], natToChars_ne_nil r, ?_⟩
    rw [List.all_eq_true]
    exact hdigits
  rw [if_pos hcond]
  simp only [List.append_nil]
  rw [digitsVal_natToChars, colIndexFromLabel_colAsLabel c hc]

theorem asCoordsD_asRef (r c : Nat) (hr : 1 ≤ r) (hc : 1 ≤ c) :
    asCoordsD (asRef r c) = (r, c) := by
  unfold asCoordsD
  rw [rowColFromRef_asRef r c hr hc]
  rfl

/-! ## Word runs and `textScan` (`util.js`: `textScan`, `REF_REGEXP`,
`RANGE_REGEXP`, `findRefsInFormula`) -/

/-- One step of the run builder: pushes a character onto the chunk list,
either extending the first run (same word-class) or opening a new one. -/
def chunkCons (c : Char) : List (List Char) → List (List Char)
  | [] => [[c]]
  | [] :: rest => [c] :: [] :: rest
  | (d :: run) :: rest =>
    if isWordChar c == isWordChar d then (c :: d :: run) :: rest
    else [c] :: (d :: run) :: rest

/-- Splits a string into the maximal runs of characters of equal
word-character class.  The word boundaries `\b` of the source's regexes
fall exactly at the borders between runs of different class and at the
string ends. -/
def chunkList (s : List Char) : List (List Char) :=
  s.foldr chunkCons []

theorem chunkCons_flatten (c : Char) (l : List (List Char)) :
    (chunkCons c l).flatten = c :: l.flatten := by
  match l with
  | [] => rfl
  | [] :: rest => rfl
  | (d :: run) :: rest =>
    by_cases h : isWordChar c == isWordChar d
    · simp [chunkCons, h]
    · simp only [Bool.not_eq_true] at h
      simp [chunkCons, h]

theorem chunkList_join (s : List Char) : (chunkList s).flatten = s := by
  induction s with
  | nil => rfl
  | cons c t ih =>
    show (chunkCons c (chunkList t)).flatten = c :: t
    rw [chunkCons_flatten, ih]

/-- `chunkList` of a nonempty string starts with a run led by the first
character. -/
theorem chunkList_head (d : Char) (t : List Char) :
    ∃ run rest, chunkList (d :: t) = (d :: run) :: rest := by
  show ∃ run rest, chunkCons d (chunkList t) = (d :: run) :: rest
  match chunkList t with
  | [] => exact ⟨[], [], rfl⟩
  | [] :: rest => exact ⟨[], [] :: rest, rfl⟩
  | (e :: run) :: rest =>
    by_cases h : isWordChar d == isWordChar e
    · exact ⟨e :: run, rest, by simp [chunkCons, h]⟩
    · simp only [Bool.not_eq_true] at h
      exact ⟨[], (e :: run) :: rest, by simp [chunkCons, h]⟩

/-- A single maximal run of one word-class: prepending it to a string
whose head (if any) has the other class contributes exactly one chunk. -/
theorem chunkList_append_run (w s : List Char) (b : Bool) (hw : w ≠ [])
    (hall : ∀ c ∈ w, isWordChar c = b)
    (hs : s = [] ∨ ∃ d t, s = d :: t ∧ isWordChar d ≠ b) :
    chunkList (w ++ s) = w :: chunkList s := by
  induction w with
  | nil => exact absurd rfl hw
  | cons c wrest ih =>
    have hc : isWordChar c = b := hall c (by simp)
    cases wrest with
    | nil =>
      show chunkCons c (chunkList s) = [c] :: chunkList s
      rcases hs with rfl | ⟨d, t, rfl, hd⟩
      · rfl
      · obtain ⟨run, rest, hrun⟩ := chunkList_head d t
        rw [hrun]
        have hne : (isWordChar c == isWordChar d) = false := by
          simp only [beq_eq_false_iff_ne, ne_eq, hc]
          intro heq
          exact hd heq.symm
        simp [chunkCons, hne]
    | cons c' wrest' =>
      have htail : chunkList ((c' :: wrest') ++ s) = (c' :: wrest') :: chunkList s :=
        ih (by simp) (fun x hx => hall x (List.mem_cons_of_mem c hx))
      show chunkCons c (chunkList ((c' :: wrest') ++ s)) = _
      rw [htail]
      have heq : (isWordChar c == isWordChar c') = true := by
        simp only [beq_iff_eq, hc]
        exact (hall c' (by simp)).symm
      simp [chunkCons, heq]

/-- The shape test for a single word run matched in full by `REF_REGEXP`
(`\b([a-z]+)(\d+)\b` with the `i` flag): letters followed by digits. -/
def isRefToken (w : List Char) : Bool :=
  w.takeWhile isLetterChar ≠ [] && w.dropWhile isLetterChar ≠ []
    && (w.dropWhile isLetterChar).all isDigitChar

/-- `textScan(text, REF_REGEXP)`: the `\b`-anchored `letters+digits`
pattern can only match a full maximal word run (a partial match is ruled
out by the boundary assertions), so the scan returns, in text order, the
word runs of `letters then digits` shape. -/
def textScanRefs (s : List Char) : List (List Char) :=
  (chunkList s).filter isRefToken

/-- The chunk walk behind `textScan(text, RANGE_REGEXP)`: a match of
`\b([a-z]+\d+):([a-z]+\d+)\b` is a ref-shaped word run, a separator run
of exactly `":"`, and another ref-shaped word run; matches are collected
left-to-right without overlap, as `matchAll` does. -/
def rangeScanChunks : List (List Char) → List (List Char)
  | w1 :: s :: w2 :: rest =>
    if isRefToken w1 && s = [':'] && isRefToken w2 then
      (w1 ++ ':' :: w2) :: rangeScanChunks rest
    else
      rangeScanChunks (s :: w2 :: rest)
  | _ => []

/-- `textScan(text, RANGE_REGEXP)`. -/
def textScanRanges (s : List Char) : List (List Char) :=
  rangeScanChunks (chunkList s)

/-- JS `new Set(list)` (keeps the first occurrence of each element, in
insertion order). -/
def setFromList {α : Type} [DecidableEq α] (l : List α) : List α :=
  l.foldl (fun acc x => if x ∈ acc then acc else acc ++ [x]) []

/-- `findRefsInFormula(formula)`:
`new Set(textScan(formula.toUpperCase(), REF_REGEXP))`. -/
def findRefsInFormula (s : List Char) : List (List Char) :=
  setFromList (textScanRefs (upStr s))

/-! ## Range expansion (`util.js`: `expandRange`, `expandRanges`) -/

/-- The body of `expandRange` applied to a matched range token: reads
the two corner coordinates (the regex capture groups are the text before
and after the colon), returns `[]` for inverted corners, and otherwise
the row-major inclusive grid of refs built by the two nested
`sequenceMap`s of the source. -/
def expandRangeToken (rtoken : List Char) : List (List (List Char)) :=
  if (asCoordsD ((rtoken.dropWhile (fun c => c ≠ ':')).drop 1)).1
        < (asCoordsD (rtoken.takeWhile (fun c => c ≠ ':'))).1
      ∨ (asCoordsD ((rtoken.dropWhile (fun c => c ≠ ':')).drop 1)).2
        < (asCoordsD (rtoken.takeWhile (fun c => c ≠ ':'))).2 then
    []
  else
    (List.range ((asCoordsD ((rtoken.dropWhile (fun c => c ≠ ':')).drop 1)).1
        - (asCoordsD (rtoken.takeWhile (fun c => c ≠ ':'))).1 + 1)).map (fun ri =>
      (List.range ((asCoordsD ((rtoken.dropWhile (fun c => c ≠ ':')).drop 1)).2
          - (asCoordsD (rtoken.takeWhile (fun c => c ≠ ':'))).2 + 1)).map (fun ci =>
        asRef ((asCoordsD (rtoken.takeWhile (fun c => c ≠ ':'))).1 + ri)
          ((asCoordsD (rtoken.takeWhile (fun c => c ≠ ':'))).2 + ci)))

/-- `expandRange(range)`: matches `RANGE_REGEXP` against the argument
(the first `ref:ref` token) and builds the grid.  `none` models the JS
`TypeError` raised when the argument has no range token (every call site
passes a scanned range token, for which the match succeeds). -/
def expandRange (range : List Char) : Option (List (List (List Char))) :=
  (textScanRanges range).head?.map expandRangeToken

/-! ### Structure of `asRef`-built tokens -/

theorem asRef_word (r c : Nat) : ∀ x ∈ asRef r c, isWordChar x = true := by
  intro x hx
  rcases List.mem_append.mp hx with h1 | h2
  · exact upper_is_word (colAsLabel_upperLetters c x h1)
  · exact digit_is_word (natToChars_digits r x h2)

theorem asRef_ne_colon (r c : Nat) : ∀ x ∈ asRef r c, x ≠ ':' := by
  intro x hx
  rcases List.mem_append.mp hx with h1 | h2
  · exact upper_ne_colon (colAsLabel_upperLetters c x h1)
  · exact digit_ne_colon (natToChars_digits r x h2)

theorem asRef_ne_nil (r c : Nat) : asRef r c ≠ [] := by
  unfold asRef
  intro h
  exact natToChars_ne_nil r (List.append_eq_nil.mp h).2

theorem isRefToken_asRef (r c : Nat) (hc : 1 ≤ c) : isRefToken (asRef r c) = true := by
  unfold isRefToken asRef
  have hlet : ∀ x ∈ colAsLabel c, isLetterChar x = true := by
    intro x hx
    exact upper_is_letter (colAsLabel_upperLetters c x hx)
  have hdig : ∀ x ∈ natToChars r, isDigitChar x = true := natToChars_digits r
  have hdnil : (natToChars r).takeWhile isLetterChar = [] := by
    cases hne : natToChars r with
    | nil => exact absurd hne (natToChars_ne_nil r)
    | cons d t =>
      exact takeWhile_eq_nil_of_head (digit_not_letter (hdig d (by rw [hne]; simp)))
  have hdself : (natToChars r).dropWhile isLetterChar = natToChars r := by
    cases hne : natToChars r with
    | nil => exact absurd hne (natToChars_ne_nil r)
    | cons d t =>
      exact dropWhile_eq_self_of_head (digit_not_letter (hdig d (by rw [hne]; simp)))
  rw [takeWhile_append_all _ _ hlet, dropWhile_append_all _ _ hlet, hdnil, hdself]
  simp only [List.append_nil, Bool.and_eq_true, decide_eq_true_eq, List.all_eq_true]
  exact ⟨⟨colAsLabel_ne_nil c hc, natToChars_ne_nil r⟩, hdig⟩

theorem chunkList_asRef_range (r1 c1 r2 c2 : Nat) :
    chunkList (asRef r1 c1 ++ ':' :: asRef r2 c2)
      = [asRef r1 c1, [':'], asRef r2 c2] := by
  have hcolon : isWordChar ':' = false := by decide
  rw [chunkList_append_run (asRef r1 c1) (':' :: asRef r2 c2) true
    (asRef_ne_nil r1 c1) (asRef_word r1 c1)
    (Or.inr ⟨':', asRef r2 c2, rfl, by rw [hcolon]; simp⟩)]
  have hhead : ∃ d t, asRef r2 c2 = d :: t ∧ isWordChar d ≠ false := by
    cases hne : asRef r2 c2 with
    | nil => exact absurd hne (asRef_ne_nil r2 c2)
    | cons d t =>
      refine ⟨d, t, rfl, ?_⟩
      rw [asRef_word r2 c2 d (by rw [hne]; simp)]
      simp
  have h2 : chunkList (':' :: asRef r2 c2) = [':'] :: chunkList (asRef r2 c2) := by
    have := chunkList_append_run [':'] (asRef r2 c2) false (by simp)
      (by intro x hx; simp only [List.mem_singleton] at hx; rw [hx]; exact hcolon)
      (Or.inr hhead)
    simpa using this
  rw [h2]
  have h3 : chunkList (asRef r2 c2) = [asRef r2 c2] := by
    have := chunkList_append_run (asRef r2 c2) [] true (asRef_ne_nil r2 c2)
      (asRef_word r2 c2) (Or.inl rfl)
    simpa [chunkList] using this
  rw [h3]

theorem textScanRanges_asRef_range (r1 c1 r2 c2 : Nat) (hc1 : 1 ≤ c1) (hc2 : 1 ≤ c2) :
    textScanRanges (asRef r1 c1 ++ ':' :: asRef r2 c2)
      = [asRef r1 c1 ++ ':' :: asRef r2 c2] := by
  unfold textScanRanges
  rw [chunkList_asRef_range]
  rw [rangeScanChunks]
  simp [isRefToken_asRef r1 c1 hc1, isRefToken_asRef r2 c2 hc2, rangeScanChunks]

theorem range_token_split_left (r1 c1 r2 c2 : Nat) :
    (asRef r1 c1 ++ ':' :: asRef r2 c2).takeWhile (fun c => c ≠ ':')
      = asRef r1 c1 := by
  rw [takeWhile_append_all]
  · rw [takeWhile_eq_nil_of_head (by simp), List.append_nil]
  · intro x hx
    simp only [ne_eq, decide_eq_true_eq]
    exact asRef_ne_colon r1 c1 x hx

theorem range_token_split_right (r1 c1 r2 c2 : Nat) :
    ((asRef r1 c1 ++ ':' :: asRef r2 c2).dropWhile (fun c => c ≠ ':')).drop 1
      = asRef r2 c2 := by
  rw [dropWhile_append_all]
  · rw [dropWhile_eq_self_of_head (by simp)]
    simp
  · intro x hx
    simp only [ne_eq, decide_eq_true_eq]
    exact asRef_ne_colon r1 c1 x hx

/-! ## Word-bounded replacement (`util.js`: `templateReplace`,
`templateReplaceForCopy`, `templateReplaceForMove`, and the range
rewrite of `moveTo`) -/

/-- Case-sensitive or (`ci`) case-insensitive equality, as selected by
the regex `i` flag. -/
def matchEq (ci : Bool) (a b : List Char) : Bool :=
  if ci then upStr a == upStr b else a == b

/-- `\b` on the left of a match whose pattern starts with a word
character: the previous character (if any) must be a non-word one. -/
def boundaryBefore (prev : Option Char) : Bool :=
  match prev with
  | none => true
  | some c => !isWordChar c

/-- `\b` on the right of a match whose pattern ends with a word
character: the following character (if any) must be a non-word one. -/
def boundaryAfter (next : Option Char) : Bool :=
  match next with
  | none => true
  | some c => !isWordChar c

/-- The `(?<!:)`/`(?!:)` guards of `templateReplaceForMove` ("ignore
ranges"): the neighbouring character must not be a colon. -/
def notColon (oc : Option Char) : Bool :=
  match oc with
  | none => true
  | some c => c ≠ ':'

/-- One left-to-right pass of JS `String.replace` with a global,
`\b`-bounded pattern (all the source's replace patterns are ref or range
tokens, which start and end with word characters, so the `\b` assertions
reduce to the neighbour checks above).  Matches are found on the
original text and do not overlap; the fuel is structural and the callers
pass the text length, which the pass cannot exceed. -/
def jsReplaceAux (ci nc : Bool) (pat val : List Char) :
    Nat → Option Char → List Char → List Char
  | _, _, [] => []
  | 0, _, s => s
  | fuel + 1, prev, c :: rest =>
    if pat ≠ [] ∧ matchEq ci pat ((c :: rest).take pat.length)
        ∧ boundaryBefore prev ∧ (nc → notColon prev = true)
        ∧ boundaryAfter ((c :: rest).drop pat.length).head?
        ∧ (nc → notColon ((c :: rest).drop pat.length).head? = true) then
      val ++ jsReplaceAux ci nc pat val fuel ((c :: rest).take pat.length).getLast?
        ((c :: rest).drop pat.length)
    else
      c :: jsReplaceAux ci nc pat val fuel (some c) rest

/-- JS `text.replace(new RegExp("\\b" + pat + "\\b", flags), val)` with
the `g` flag (and `i` if `ci`, the colon guards if `nc`). -/
def jsReplaceAll (ci nc : Bool) (pat val s : List Char) : List Char :=
  jsReplaceAux ci nc pat val s.length none s

/-- `templateReplace(template, replacements)`: folds the replacement
pairs over the template, each applied case-insensitively (`"gi"`). -/
def templateReplace (template : List Char)
    (replacements : List (List Char × List Char)) : List Char :=
  replacements.foldl (fun acc p => jsReplaceAll true false p.1 p.2 acc) template

/-- `templateReplaceForCopy(template, replacements)`: uppercases the
template, replaces each uppercased ref case-sensitively by the
lowercased value (so an already-replaced value can never be matched by a
later uppercase pattern), and uppercases the result. -/
def templateReplaceForCopy (template : List Char)
    (replacements : List (List Char × List Char)) : List Char :=
  upStr (replacements.foldl
    (fun acc p => jsReplaceAll false false (upStr p.1) (downStr p.2) acc)
    (upStr template))

/-- `templateReplaceForMove(template, replacements)`: like the copy
variant but with the `(?<!:)`/`(?!:)` guards, which keep the endpoints
of range tokens from being rewritten as single refs. -/
def templateReplaceForMove (template : List Char)
    (replacements : List (List Char × List Char)) : List Char :=
  upStr (replacements.foldl
    (fun acc p => jsReplaceAll false true (upStr p.1) (downStr p.2) acc)
    (upStr template))

/-- Plain (unanchored) substring replacement, JS `String.replaceAll`
with a literal pattern, used by `expandRanges` and by the range rewrite
inside `moveTo` (whose pattern there is `\b`-bounded: flag `bounded`). -/
def plainReplaceAux (bounded : Bool) (pat val : List Char) :
    Nat → Option Char → List Char → List Char
  | _, _, [] => []
  | 0, _, s => s
  | fuel + 1, prev, c :: rest =>
    if pat ≠ [] ∧ pat == (c :: rest).take pat.length
        ∧ (bounded → boundaryBefore prev = true)
        ∧ (bounded → boundaryAfter ((c :: rest).drop pat.length).head? = true) then
      val ++ plainReplaceAux bounded pat val fuel ((c :: rest).take pat.length).getLast?
        ((c :: rest).drop pat.length)
    else
      c :: plainReplaceAux bounded pat val fuel (some c) rest

/-- JS `text.replaceAll(pat, val)` on a literal pattern. -/
def replaceAllPlain (pat val s : List Char) : List Char :=
  plainReplaceAux false pat val s.length none s

/-- The range rewrite of `moveTo`:
`text.replace(new RegExp("\\b" + range + "\\b", "g"), newRange)` — a
literal (case-sensitive) but `\b`-bounded global replacement. -/
def replaceRangeBounded (pat val s : List Char) : List Char :=
  plainReplaceAux true pat val s.length none s

/-- Renders `JSON.stringify(expandRange(range)).replaceAll('"', "")`:
the nested array literal without quotes, e.g. `[[A1,B1],[A2,B2]]`. -/
def renderGrid (g : List (List (List Char))) : List Char :=
  '[' :: (List.intercalate [','] (g.map (fun row =>
    '[' :: List.intercalate [','] row ++ [']']))) ++ [']']

/-- `expandRanges(formula)`: replaces every distinct range token of the
formula by its rendered expansion.  (`expandRange` always matches here
because the tokens come from the scan, hence the defaulted `getD`.) -/
def expandRanges (formula : List Char) : List Char :=
  (setFromList (textScanRanges formula)).foldl
    (fun acc range => replaceAllPlain range (renderGrid ((expandRange range).getD []))
      acc)
    formula

/-! ## Copy translation (`util.js`: `newRefForCopy`) -/

/-- `newRefForCopy(ref, source, target)`: translates `ref` by the
coordinate delta `target - source`; a translated row or column below 1
yields the placeholder `"[invalid ref]"`.  (`asCoordsD` stands for the
`asCoords` calls, which never see an unparsable ref at the call sites.) -/
def newRefForCopy (ref source target : List Char) : List Char :=
  if ((asCoordsD ref).1 : Int) + ((asCoordsD target).1 : Int) - ((asCoordsD source).1 : Int) < 1
      ∨ ((asCoordsD ref).2 : Int) + ((asCoordsD target).2 : Int) - ((asCoordsD source).2 : Int) < 1 then
    "[invalid ref]".data
  else
    asRef (((asCoordsD ref).1 : Int) + ((asCoordsD target).1 : Int)
        - ((asCoordsD source).1 : Int)).toNat
      (((asCoordsD ref).2 : Int) + ((asCoordsD target).2 : Int)
        - ((asCoordsD source).2 : Int)).toNat

/-! ## Claim theorems C5 and C6 -/

/-- C5 (column-label round-trip): for every integer `n ≥ 1`, converting
`n` to its base-26 no-zero-digit letter label (`colAsLabel`) and parsing
that label back (`colIndexFromLabel`) yields `n` again; in particular 27
maps to `"AA"`, 702 to `"ZZ"`, and 703 to `"AAA"`. -/
theorem colLabel_round_trip :
    (∀ n : Nat, 1 ≤ n → colIndexFromLabel (colAsLabel n) = n)
      ∧ colAsLabel 27 = "AA".data
      ∧ colAsLabel 702 = "ZZ".data
      ∧ colAsLabel 703 = "AAA".data := by
  refine ⟨colIndexFromLabel_colAsLabel, ?_, ?_, ?_⟩ <;> decide

/-- Witness for C5: the round-trip instantiated at the concrete column
index 3. -/
theorem colLabel_round_trip_witness :
    colIndexFromLabel (colAsLabel 3) = 3 :=
  colLabel_round_trip.1 3 (by decide)

/-- C6 (range expansion): for every well-formed range whose top-left
corner is at or above-left of its bottom-right corner, `expandRange`
returns exactly `(rows)×(cols)` coordinates in row-major order (rows
outer, columns inner, both inclusive — the nested map below); for every
range whose bottom-right is strictly above or strictly left of its
top-left, it returns an empty sequence rather than failing. -/
theorem expandRange_spec :
    ∀ r1 c1 r2 c2 : Nat, 1 ≤ r1 → 1 ≤ c1 → 1 ≤ r2 → 1 ≤ c2 →
      (r1 ≤ r2 → c1 ≤ c2 →
        expandRange (asRef r1 c1 ++ ':' :: asRef r2 c2)
          = some ((List.range (r2 - r1 + 1)).map (fun ri =>
              (List.range (c2 - c1 + 1)).map (fun ci =>
                asRef (r1 + ri) (c1 + ci)))))
      ∧ (r2 < r1 ∨ c2 < c1 →
          expandRange (asRef r1 c1 ++ ':' :: asRef r2 c2) = some []) := by
  intro r1 c1 r2 c2 hr1 hc1 hr2 hc2
  unfold expandRange
  rw [textScanRanges_asRef_range r1 c1 r2 c2 hc1 hc2]
  simp only [List.head?_cons, Option.map_some']
  unfold expandRangeToken
  rw [range_token_split_left, range_token_split_right,
    asCoordsD_asRef r1 c1 hr1 hc1, asCoordsD_asRef r2 c2 hr2 hc2]
  constructor
  · intro hr hc
    rw [if_neg (by simp; omega)]
  · intro hinv
    rw [if_pos (by simpa using hinv)]

/-- Witness for C6: both branches at concrete corners — `A1:B2` expands
to the row-major 2×2 grid, and the inverted `B2:A1` expands to `[]`. -/
theorem expandRange_spec_witness :
    expandRange (asRef 1 1 ++ ':' :: asRef 2 2)
        = some ((List.range 2).map (fun ri =>
            (List.range 2).map (fun ci => asRef (1 + ri) (1 + ci))))
      ∧ expandRange (asRef 2 2 ++ ':' :: asRef 1 1) = some [] := by
  constructor
  · have h := (expandRange_spec 1 1 2 2 (by decide) (by decide) (by decide)
      (by decide)).1 (by decide) (by decide)
    simpa using h
  · exact (expandRange_spec 2 2 1 1 (by decide) (by decide) (by decide)
      (by decide)).2 (by decide)

/-! ## JS values (`normalizeValue` range of cell contents) -/

/-- The JS values that flow through cell contents and evaluated values:
numbers (restricted to integers, the only numbers the verified scenarios
produce), strings, `null` and `undefined`. -/
inductive JSVal where
  | num (n : Int)
  | str (s : List Char)
  | nullV
  | undefV
deriving DecidableEq, Repr

/-- `isFormula(value)`: text matching `^=(.*)$`. -/
def isFormula : JSVal → Bool
  | .str ('=' :: _) => true
  | _ => false

/-- The text of a string value (call sites only use it on strings). -/
def formulaText : JSVal → List Char
  | .str s => s
  | _ => []

/-- `rawFormula(formula)`: the capture group of `^=(.*)$`. -/
def rawFormula : List Char → List Char
  | '=' :: rest => rest
  | s => s

/-- JS whitespace for `trim`. -/
def isSpaceChar (c : Char) : Bool :=
  c = ' ' || c = '\t' || c = '\n' || c = '\r'

/-- `Util.isEmpty(value)`: `undefined`, `null`, or blank text. -/
def isEmptyVal : JSVal → Bool
  | .undefV => true
  | .nullV => true
  | .str s => s.all isSpaceChar
  | .num _ => false

/-- Decimal rendering of an integer (JS `String(n)`). -/
def intToChars (n : Int) : List Char :=
  if n < 0 then '-' :: natToChars (-n).toNat else natToChars n.toNat

/-- JS string coercion `String(value)`, as `String.replace` applies to a
non-string replacement value. -/
def renderJSVal : JSVal → List Char
  | .num n => intToChars n
  | .str s => s
  | .nullV => "null".data
  | .undefV => "undefined".data

/-- Integer reading of a string, the model of `Number(text)`; strings
that are not optionally-signed integer numerals are modelled as `NaN`
(`none`).  (JS also accepts fractional numerals; no verified claim
involves them.) -/
def strToIntOpt (s : List Char) : Option Int :=
  match (s.dropWhile isSpaceChar).reverse.dropWhile isSpaceChar |>.reverse with
  | '-' :: ds => if ds ≠ [] ∧ ds.all isDigitChar then some (-(digitsVal ds : Int)) else none
  | ds => if ds ≠ [] ∧ ds.all isDigitChar then some ((digitsVal ds : Int)) else none

/-- `Object.is(Number(value), NaN)` on a cell value. -/
def jsNumberIsNaN : JSVal → Bool
  | .num _ => false
  | .nullV => false
  | .undefV => true
  | .str s => (strToIntOpt s).isNone

/-! ## Arithmetic evaluation (the model of `eval(parsedFormula)`)

The source evaluates the substituted formula with JS `eval`.  The model
evaluates the integer `+`/`-`/`*` fragment (with parentheses and unary
minus) that the verified scenarios use; any other expression — including
the aggregate calls such as `SUM(...)` — is modelled as an evaluation
failure, which the caller turns into `"Invalid formula"`. -/

inductive ATok where
  | num (n : Nat)
  | plus
  | minus
  | star
  | lpar
  | rpar
deriving DecidableEq, Repr

/-- Tokenizer for the arithmetic fragment (fuel = text length). -/
def tokenizeArith : Nat → List Char → Option (List ATok)
  | _, [] => some []
  | 0, _ => none
  | fuel + 1, c :: rest =>
    if c = ' ' then tokenizeArith fuel rest
    else if c = '+' then (tokenizeArith fuel rest).map (ATok.plus :: ·)
    else if c = '-' then (tokenizeArith fuel rest).map (ATok.minus :: ·)
    else if c = '*' then (tokenizeArith fuel rest).map (ATok.star :: ·)
    else if c = '(' then (tokenizeArith fuel rest).map (ATok.lpar :: ·)
    else if c = ')' then (tokenizeArith fuel rest).map (ATok.rpar :: ·)
    else if isDigitChar c then
      (tokenizeArith fuel ((c :: rest).dropWhile isDigitChar)).map
        (ATok.num (digitsVal ((c :: rest).takeWhile isDigitChar)) :: ·)
    else none

/-- Recursive-descent parser, fuel-decremented on every call. -/
def pExpr : Nat → List ATok → Option (Int × List ATok)
  | 0, _ => none
  | fuel + 1, ts =>
    match pTerm fuel ts with
    | none => none
    | some (v, rest) => pExprLoop fuel v rest
where
  pTerm : Nat → List ATok → Option (Int × List ATok)
    | 0, _ => none
    | fuel + 1, ts =>
      match pFactor fuel ts with
      | none => none
      | some (v, rest) => pTermLoop fuel v rest
  pFactor : Nat → List ATok → Option (Int × List ATok)
    | 0, _ => none
    | fuel + 1, ts =>
      match ts with
      | ATok.num n :: rest => some ((n : Int), rest)
      | ATok.minus :: rest =>
        match pFactor fuel rest with
        | some (v, rest') => some (-v, rest')
        | none => none
      | ATok.lpar :: rest =>
        match pExpr fuel rest with
        | some (v, ATok.rpar :: rest') => some (v, rest')
        | _ => none
      | _ => none
  pExprLoop : Nat → Int → List ATok → Option (Int × List ATok)
    | 0, _, _ => none
    | fuel + 1, acc, ts =>
      match ts with
      | ATok.plus :: rest =>
        match pTerm fuel rest with
        | some (v, rest') => pExprLoop fuel (acc + v) rest'
        | none => none
      | ATok.minus :: rest =>
        match pTerm fuel rest with
        | some (v, rest') => pExprLoop fuel (acc - v) rest'
        | none => none
      | _ => some (acc, ts)
  pTermLoop : Nat → Int → List ATok → Option (Int × List ATok)
    | 0, _, _ => none
    | fuel + 1, acc, ts =>
      match ts with
      | ATok.star :: rest =>
        match pFactor fuel rest with
        | some (v, rest') => pTermLoop fuel (acc * v) rest'
        | none => none
      | _ => some (acc, ts)

/-- The model of `eval` on a substituted formula body. -/
def evalArith (s : List Char) : Option Int :=
  match tokenizeArith s.length s with
  | none => none
  | some ts =>
    match pExpr (4 * ts.length + 8) ts with
    | some (v, []) => some v
    | _ => none

/-! ## The Cell / Sheet data model -/

/-- A grid coordinate in text form (`"A1"`). -/
abbrev Ref := List Char

/-- `Util.asRef` applied to a string ref: parse and re-print, i.e.
canonicalize (uppercase the label, strip leading zeros of the row). -/
def asRefStr (s : Ref) : Ref :=
  asRef (asCoordsD s).1 (asCoordsD s).2

/-- The `Cell` entity.  `errorMessage` is `none` for the JS `null`. -/
structure Cell where
  ref : Ref
  value : JSVal := .undefV
  evaluatedValue : JSVal := .undefV
  subjects : List Ref := []
  observers : List Ref := []
  modified : Bool := false
  evaluated : Bool := false
  invalid : Bool := false
  errorMessage : Option (List Char) := none
deriving DecidableEq, Repr

/-- The `Sheet`: an insertion-ordered association list of cells (the JS
object key order), plus a ghost `evalLog` that records, in order, every
cell whose `_evaluateValue` body ran (i.e. passed the `evaluated` guard);
the log is instrumentation only and influences nothing. -/
structure Sheet where
  cells : List (Ref × Cell) := []
  evalLog : List Ref := []
deriving DecidableEq, Repr

/-- Key update-or-append for the cell map (`this.cells[ref] = cell`). -/
def setEntry : List (Ref × Cell) → Ref → Cell → List (Ref × Cell)
  | [], r, c => [(r, c)]
  | (r', c') :: rest, r, c =>
    if r' = r then (r, c) :: rest else (r', c') :: setEntry rest r c

namespace Sheet

/-- Raw map read (already-canonical key). -/
def findCellRaw (s : Sheet) (r : Ref) : Option Cell :=
  (s.cells.find? (fun p => p.1 = r)).map (fun p => p.2)

/-- `findCell(refOrCoords)`: canonicalizes the ref through `Util.asRef`
and reads the map. -/
def findCell (s : Sheet) (r : Ref) : Option Cell :=
  s.findCellRaw (asRefStr r)

/-- Raw map write at an already-canonical key. -/
def setCellRaw (s : Sheet) (r : Ref) (c : Cell) : Sheet :=
  { s with cells := setEntry s.cells r c }

/-- Total read with an empty-cell default.  The JS code would throw on a
missing cell; the maintained invariants (subjects and observers always
denote existing cells) keep every call site on the `some` branch, so the
default is never observed there. -/
def getCell (s : Sheet) (r : Ref) : Cell :=
  (s.findCell r).getD { ref := asRefStr r }

/-- Writes a cell back under its own (canonical) ref — the model of a JS
in-place object mutation. -/
def updateCell (s : Sheet) (c : Cell) : Sheet :=
  s.setCellRaw c.ref c

/-- `findOrCreateCell(refOrCoords)` (with `valueIfNew = undefined`, as in
every engine path: the constructor's `setValue(undefined)` is a no-op,
so the created cell is the default one). -/
def findOrCreateCell (s : Sheet) (r : Ref) : Cell × Sheet :=
  match s.findCell r with
  | some c => (c, s)
  | none =>
    ({ ref := asRefStr r }, s.setCellRaw (asRefStr r) { ref := asRefStr r })

end Sheet

/-! ### JS `Set` operations over insertion-ordered duplicate-free lists -/

/-- `Set.add`. -/
def listAdd (l : List Ref) (x : Ref) : List Ref :=
  if x ∈ l then l else l ++ [x]

/-- `Set.delete`. -/
def listRemove (l : List Ref) (x : Ref) : List Ref :=
  l.filter (fun y => y ≠ x)

/-- `Util.setDiff`. -/
def setDiff (a b : List Ref) : List Ref :=
  a.filter (fun y => y ∉ b)

/-- `Util.setIntersect`. -/
def setIntersect (a b : List Ref) : List Ref :=
  a.filter (fun y => y ∈ b)

/-! ### Evaluation protocol (`_valueForFormulaCalculation`,
`_parseFormula`, `_evaluateValue`, `_notifyObservers`) -/

/-- `_valueForFormulaCalculation(defaultValue)`. -/
def valueForFormulaCalculation (c : Cell) (defaultValue : JSVal) : JSVal :=
  if isEmptyVal c.value then defaultValue
  else if isFormula c.value then c.evaluatedValue
  else if jsNumberIsNaN c.value then defaultValue
  else c.evaluatedValue

/-- The subject-values object of `_parseFormula`: walks the subjects in
insertion order, raising `InvalidRefInFormula` at the first invalid one. -/
def buildSubjectValues (s : Sheet) : List Ref → Except (List Char) (List (Ref × List Char))
  | [] => .ok []
  | r :: rest =>
    if (s.getCell r).invalid then
      .error ("Invalid ref [".data ++ r ++ "]".data)
    else
      match buildSubjectValues s rest with
      | .error e => .error e
      | .ok ps =>
        .ok ((r, renderJSVal (valueForFormulaCalculation (s.getCell r) (.num 0))) :: ps)

/-- `_parseFormula(defaultValue = 0)`: substitutes every subject's value
into the range-expanded formula and strips the leading `=`. -/
def parseFormula (s : Sheet) (c : Cell) : Except (List Char) (List Char) :=
  match buildSubjectValues s c.subjects with
  | .error e => .error e
  | .ok pairs => .ok (rawFormula (templateReplace (expandRanges (formulaText c.value)) pairs))

/-- The value/validity part of `_evaluateValue` on the marked cell. -/
def evalCellValue (s : Sheet) (c : Cell) : Cell :=
  if isFormula c.value then
    match parseFormula s c with
    | .error msg =>
      { c with evaluatedValue := .nullV, invalid := true, errorMessage := some msg }
    | .ok expr =>
      match evalArith expr with
      | some v => { c with evaluatedValue := .num v }
      | none =>
        { c with evaluatedValue := .nullV, invalid := true,
                 errorMessage := some "Invalid formula".data }
  else { c with evaluatedValue := c.value }

/-- The observer walk of `_notifyObservers`: an observer is skipped while
any of its subjects inside the frontier is not yet marked `evaluated`;
otherwise it is evaluated re-entrantly (`recurse` is `_evaluateValue` at
one smaller fuel). -/
def notifyObserversGo (frontier : List Ref) (recurse : Sheet → Ref → Sheet) :
    Sheet → List Ref → Sheet
  | s, [] => s
  | s, oref :: rest =>
    if ((setIntersect (s.getCell oref).subjects frontier).filter
        (fun r => !(s.getCell r).evaluated)).length > 0 then
      notifyObserversGo frontier recurse s rest
    else
      notifyObserversGo frontier recurse (recurse s oref) rest

/-- `_evaluateValue(updatedCellDescendantObservers)`.  Structural fuel;
the callers pass `evalFuel`, which the pass cannot exhaust because every
re-entrant call either stops at the `evaluated` guard or flips one more
`evaluated` flag. -/
def evaluateValueF : Nat → Sheet → Ref → List Ref → Sheet
  | 0, s, _, _ => s
  | fuel + 1, s, ref, frontier =>
    if (s.getCell ref).evaluated then s
    else
      -- mark evaluated (before recursing), optimistically clear validity,
      -- and ghost-log this evaluation
      let c1 := { s.getCell ref with evaluated := true, invalid := false,
                                     errorMessage := none }
      let s1 := { s.updateCell c1 with evalLog := s.evalLog ++ [c1.ref] }
      let c2 := evalCellValue s1 c1
      let s2 := s1.updateCell c2
      if c2.evaluatedValue = c1.evaluatedValue then s2
      else
        notifyObserversGo frontier (fun s' r => evaluateValueF fuel s' r frontier)
          (s2.updateCell { c2 with modified := true }) c2.observers

/-- Fuel bound for an evaluation pass. -/
def evalFuel (s : Sheet) : Nat := 2 * s.cells.length + 4

/-! ### Cycle detection (`_hasCircularDependency`) -/

/-- The `some` walk of `_hasCircularDependency`: for each not-yet-visited
subject ref, push it, create-if-absent its cell, and recurse into that
cell's (current) subjects, short-circuiting on the first `true`. -/
def hasCDGo (recurse : Sheet → List Ref → List Ref → Bool × Sheet × List Ref) :
    Sheet → List Ref → List Ref → Bool × Sheet × List Ref
  | s, [], visited => (false, s, visited)
  | s, r :: rest, visited =>
    if r ∈ visited then hasCDGo recurse s rest visited
    else
      match recurse (s.findOrCreateCell r).2 ((s.findOrCreateCell r).1).subjects
          (visited ++ [r]) with
      | (true, s'', v'') => (true, s'', v'')
      | (false, s'', v'') => hasCDGo recurse s'' rest v''

/-- `_hasCircularDependency(subjects, visited = [])`.  On fuel exhaustion
(unreachable at the supplied fuel, which exceeds the number of refs the
walk can visit) the result is conservatively `true`, which leaves the
edge set untouched. -/
def hasCircularDependencyF (selfRef : Ref) :
    Nat → Sheet → List Ref → List Ref → Bool × Sheet × List Ref
  | 0, s, _, visited => (true, s, visited)
  | fuel + 1, s, subjects, visited =>
    if selfRef ∈ subjects then (true, s, visited)
    else hasCDGo (hasCircularDependencyF selfRef fuel) s subjects visited

/-- All refs appearing in subject sets (a visit universe for the cycle
walk). -/
def allSubjRefs (s : Sheet) : List Ref :=
  (s.cells.map (fun p => p.2.subjects)).flatten

/-- Fuel bound for the cycle walk from a given subject set. -/
def cdFuel (s : Sheet) (subs : List Ref) : Nat :=
  (allSubjRefs s).length + subs.length + 1

/-! ### Descendant observers (`descendantObservers`) -/

/-- The `flatMap` walk of `descendantObservers` over one observer list,
threading the shared `visited` array.  The third component is ghost
instrumentation: it is `false` when fuel ran out somewhere below. -/
def descObsGo (recurse : Sheet → Ref → List Ref → List Ref × List Ref × Bool) :
    Sheet → List Ref → List Ref → List Ref × List Ref × Bool
  | _, [], visited => ([], visited, true)
  | s, o :: rest, visited =>
    if o ∈ visited then descObsGo recurse s rest visited
    else
      match recurse s o (visited ++ [o]) with
      | (r1, v1, ok1) =>
        match descObsGo recurse s rest v1 with
        | (r2, v2, ok2) => (r1 ++ r2, v2, ok1 && ok2)

/-- `descendantObservers(visited = [])`: the cell's own ref plus the
transitive closure over `observers` (the set-semantics dedup of the
source's `setAppend`). -/
def descendantObserversF : Nat → Sheet → Ref → List Ref → List Ref × List Ref × Bool
  | 0, _, ref, visited => ([ref], visited, false)
  | fuel + 1, s, ref, visited =>
    match descObsGo (fun s' o v => descendantObserversF fuel s' o v) s
        (s.getCell ref).observers visited with
    | (res, v', ok) => (setFromList (ref :: res), v', ok)

/-- All refs appearing in observer sets (a visit universe for the
descendant walk). -/
def allObsRefs (s : Sheet) : List Ref :=
  (s.cells.map (fun p => p.2.observers)).flatten

/-- Fuel bound for the descendant walk. -/
def obsFuel (s : Sheet) : Nat := (allObsRefs s).length + 1

/-! ### Content writes (`setValue`, `updateOrCreateCell`, the `Sheet`
constructor) -/

/-- Registration fold: `findOrCreateCell(r)._registerObserver(obsRef)`. -/
def registerAll (s : Sheet) (refs : List Ref) (obsRef : Ref) : Sheet :=
  refs.foldl (fun acc r =>
    (acc.findOrCreateCell r).2.updateCell
      { (acc.findOrCreateCell r).1 with
        observers := listAdd ((acc.findOrCreateCell r).1).observers obsRef }) s

/-- Unregistration fold: `findOrCreateCell(r)._unregisterObserver(obsRef)`. -/
def unregisterAll (s : Sheet) (refs : List Ref) (obsRef : Ref) : Sheet :=
  refs.foldl (fun acc r =>
    (acc.findOrCreateCell r).2.updateCell
      { (acc.findOrCreateCell r).1 with
        observers := listRemove ((acc.findOrCreateCell r).1).observers obsRef }) s

/-- The new subject set computed by `setValue`:
`extractCells(expandRanges(newValue))` for formulas, empty otherwise. -/
def newSubjectsOf (v : JSVal) : List Ref :=
  if isFormula v then findRefsInFormula (expandRanges (formulaText v)) else []

/-- The first stage of `setValue` on a changed value: store the value,
mark the cell modified, optimistically clear the invalid state. -/
def setValueStage1 (s : Sheet) (ref : Ref) (v : JSVal) : Sheet :=
  s.updateCell { s.getCell ref with value := v, modified := true, invalid := false,
                                    errorMessage := none }

/-- The cycle check of `setValue`:
`this._hasCircularDependency(newSubjects)` run on the stage-1 state. -/
def setValueCheck (s : Sheet) (ref : Ref) (v : JSVal) : Bool × Sheet × List Ref :=
  hasCircularDependencyF (s.getCell ref).ref
    (cdFuel (setValueStage1 s ref v) (newSubjectsOf v)) (setValueStage1 s ref v)
    (newSubjectsOf v) []

/-- The edge-commit stage of `setValue` in the non-cyclic branch:
`this.subjects = newSubjects` followed by the diff
registration/unregistration of observers. -/
def setValueCommit (s : Sheet) (ref : Ref) (v : JSVal) : Sheet :=
  match setValueCheck s ref v with
  | (_, s2, _) =>
    let s3 := s2.updateCell { s2.getCell ref with subjects := newSubjectsOf v }
    let s4 := registerAll s3 (setDiff (newSubjectsOf v) (s.getCell ref).subjects)
      (s.getCell ref).ref
    unregisterAll s4 (setDiff (s.getCell ref).subjects (newSubjectsOf v))
      (s.getCell ref).ref

/-- The frontier captured by `setValue` before evaluating the written
cell: `descendantObservers()` computed on the edge-committed state. -/
def setValueFrontier (s : Sheet) (ref : Ref) (v : JSVal) : List Ref :=
  (descendantObserversF (obsFuel (setValueCommit s ref v)) (setValueCommit s ref v)
    (s.getCell ref).ref []).1

/-- `Cell#setValue(newValue)` on the cell at `ref` (the optional
`descendantObservers` parameter of the source is always `undefined` in
the engine paths, `ENABLE_SELECTIVE_CLONING` being `false`, so the
frontier is always computed here). -/
def setValue (s : Sheet) (ref : Ref) (v : JSVal) : Sheet :=
  if (s.getCell ref).value = v then s
  else
    match setValueCheck s ref v with
    | (true, s2, _) =>
      s2.updateCell { s2.getCell ref with evaluatedValue := .nullV, invalid := true,
                                          errorMessage := some "Circular dependency".data }
    | (false, _, _) =>
      -- capture the frontier, then evaluate (and maybe propagate)
      evaluateValueF (evalFuel (setValueCommit s ref v)) (setValueCommit s ref v)
        ((s.getCell ref).ref) (setValueFrontier s ref v)

/-- `Sheet#updateOrCreateCell(ref, value)` (the `writeCell` of the
external interface).  The create branch models `new Cell(ref, value,
sheet)`: the constructor initializes the default fields and runs
`setValue`, which is observationally the same as inserting the default
cell and then running the map-based `setValue` (the constructor never
looks itself up through the map: the cycle walk checks `this.ref`
membership before any `findOrCreateCell`, and in the commit branch the
own ref is never among the new subjects). -/
def updateOrCreateCell (s : Sheet) (ref : Ref) (v : JSVal) : Sheet :=
  match s.findCell ref with
  | some _ => setValue s ref v
  | none => setValue (s.setCellRaw (asRefStr ref) { ref := asRefStr ref }) ref v

/-- Resets every cell's `evaluated` flag (used between the initial-data
writes and by `copyTo`). -/
def resetEvaluatedFlags (s : Sheet) : Sheet :=
  { s with cells := s.cells.map (fun p => (p.1, { p.2 with evaluated := false })) }

/-- `Sheet#_loadInitialCellData`. -/
def loadInitialCellData (s : Sheet) (initial : List (Ref × JSVal)) : Sheet :=
  initial.foldl (fun acc p => resetEvaluatedFlags (updateOrCreateCell acc p.1 p.2)) s

/-- `new Sheet(initialCellData)` (the `id` field, a timestamp, is not
modelled). -/
def sheetNew (initial : List (Ref × JSVal)) : Sheet :=
  loadInitialCellData {} initial

/-! ### Copy and move (`Cell#copyTo`, `Cell#moveTo`) -/

/-- `Cell#copyTo(targetRef)`. -/
def copyTo (s : Sheet) (selfRef : Ref) (targetRef : Ref) : Sheet :=
  let c := s.getCell selfRef
  let copiedValue :=
    if isFormula c.value then
      JSVal.str (templateReplaceForCopy (formulaText c.value)
        ((findRefsInFormula (formulaText c.value)).map
          (fun r => (r, newRefForCopy r c.ref targetRef))))
    else c.value
  -- clear every cell's `evaluated` flag before reprocessing
  updateOrCreateCell (resetEvaluatedFlags s) targetRef copiedValue

/-- Clears the `evaluated` flag of the given cells. -/
def clearEvaluatedOn (s : Sheet) (refs : List Ref) : Sheet :=
  refs.foldl (fun acc r => acc.updateCell { acc.getCell r with evaluated := false }) s

/-- The per-observer body of `moveTo`: rewrites fully-moved range tokens
endpoint-by-endpoint, then rewrites the single-ref occurrences of the
source coordinate (ranges excluded by the colon guards), re-sets the
observer's content and clears its `evaluated` flag. -/
def moveObserverOne (selfRef targetRef : Ref) (sourceRefs : List Ref)
    (s : Sheet) (oref : Ref) : Sheet :=
  let observerValue := (setFromList (textScanRanges
      (formulaText (s.getCell oref).value))).foldl
    (fun ov range =>
      if setDiff (setFromList ((expandRange range).getD []).flatten) sourceRefs
          = [] then
        replaceRangeBounded range
          (newRefForCopy (range.takeWhile (fun c => c ≠ ':')) selfRef targetRef
            ++ ':' :: newRefForCopy ((range.dropWhile (fun c => c ≠ ':')).drop 1)
              selfRef targetRef)
          ov
      else ov)
    (formulaText (s.getCell oref).value)
  let s' := setValue s oref
    (.str (templateReplaceForMove observerValue [(selfRef, targetRef)]))
  s'.updateCell { s'.getCell oref with evaluated := false }

/-- `Cell#moveTo(targetRef, sourceRefs)`. -/
def moveTo (s : Sheet) (selfRef : Ref) (targetRef : Ref) (sourceRefs : List Ref) :
    Sheet :=
  let c := s.getCell selfRef
  -- reset the target's current observers
  let s1 := (s.findOrCreateCell targetRef).2
  let s2 := clearEvaluatedOn s1 ((s.findOrCreateCell targetRef).1).observers
  -- copy the source's raw value to the target
  let s3 := updateOrCreateCell s2 targetRef c.value
  -- update every observer of the source
  let s4 := ((s3.getCell selfRef).observers).foldl
    (moveObserverOne c.ref targetRef sourceRefs) s3
  -- vacate the source (with its `evaluated` flag cleared first)
  let s5 := s4.updateCell { s4.getCell selfRef with evaluated := false }
  setValue s5 selfRef .nullV

/-! ## Derived views of the graph -/

/-- The subject adjacency of the sheet (the `subjects` edge set read
through the grid, empty for absent cells). -/
def subjectsOf (s : Sheet) (r : Ref) : List Ref :=
  (s.getCell r).subjects

/-- The observer adjacency of the sheet. -/
def observersOf (s : Sheet) (r : Ref) : List Ref :=
  (s.getCell r).observers

/-! ## Concrete scenario grids used by the claim theorems -/

/-- The canonical diamond of C3: `B1` and `C1` each read `A1`, and `D1`
reads both `B1` and `C1`. -/
def diamondSheet : Sheet :=
  sheetNew [("A1".data, .num 1), ("B1".data, .str "=A1+1".data),
    ("C1".data, .str "=A1+2".data), ("D1".data, .str "=B1+C1".data)]

/-- The diamond after writing `10` into `A1`, with the evaluation log
restarted so that it records exactly this write's propagation pass. -/
def diamondAfter : Sheet :=
  setValue { diamondSheet with evalLog := [] } "A1".data (.num 10)

/-- The copy scenario of C7: `B2` holds `=A1+1`. -/
def copySheet : Sheet :=
  sheetNew [("A1".data, .num 5), ("B2".data, .str "=A1+1".data)]

/-- The partial-move scenario of C8: `B1` holds `=SUM(A1:A2)+A1`. -/
def moveSheetA : Sheet :=
  sheetNew [("A1".data, .num 1), ("A2".data, .num 2),
    ("B1".data, .str "=SUM(A1:A2)+A1".data)]

/-- The full-move scenario of C8: `B1` holds `=SUM(A1:A2)`. -/
def moveSheetB : Sheet :=
  sheetNew [("A1".data, .num 1), ("A2".data, .num 2),
    ("B1".data, .str "=SUM(A1:A2)".data)]

/-- The rejected-write scenario of C9: `B1` reads `A1`, and the write
`=Z9+B1+Q7` into `A1` is cyclic through `B1`. -/
def cycleSheet : Sheet :=
  sheetNew [("B1".data, .str "=A1".data)]

/-- The rejected write itself. -/
def cycleAfter : Sheet :=
  setValue cycleSheet "A1".data (.str "=Z9+B1+Q7".data)

/-! ## Claim theorem C3 -/

set_option maxHeartbeats 8000000 in
/-- C3 (diamond-safe propagation): in the diamond grid where `B1` and
`C1` each read `A1` and `D1` reads both, a single `setValue` on `A1`
that changes its evaluated value runs `D1`'s evaluation exactly once
during the propagation pass, only after both `B1` and `C1` have been
evaluated in that pass, and `D1`'s resulting value `23 = (10+1)+(10+2)`
reflects both updated inputs.  (The ghost `evalLog` records, in order,
every cell whose `_evaluateValue` body ran during the pass.) -/
theorem diamond_propagation :
    diamondAfter.evalLog = ["A1".data, "B1".data, "C1".data, "D1".data]
    ∧ diamondAfter.evalLog.count "D1".data = 1
    ∧ (diamondAfter.getCell "D1".data).evaluatedValue = .num ((10 + 1) + (10 + 2))
    ∧ (diamondAfter.getCell "A1".data).evaluatedValue
        ≠ (diamondSheet.getCell "A1".data).evaluatedValue := by
  decide

/-! ## Claim theorems C7 -/

set_option maxHeartbeats 8000000 in
/-- Counterexample to C7 as stated: copying `B2` (holding `=A1+1`) to
`A1` translates the `A1` token out of range, but the stored placeholder
is the uppercased `[INVALID REF]` — `templateReplaceForCopy` uppercases
its whole result — not the literal `"[invalid ref]"` of the claim. -/
theorem copyTo_placeholder_counterexample :
    ((copyTo copySheet "B2".data "A1".data).getCell "A1".data).value
        = .str "=[INVALID REF]+1".data
    ∧ ((copyTo copySheet "B2".data "A1".data).getCell "A1".data).value
        ≠ .str "=[invalid ref]+1".data := by
  decide

set_option maxHeartbeats 8000000 in
/-- C7 as amended: `copyTo` writes into the target the formula with each
reference token translated by the coordinate delta `target − source`
(the per-token rule of `newRefForCopy`, proved for all coordinates); a
token whose translated row or column would be less than 1 is replaced by
the placeholder, which the copy pipeline stores uppercased as
`[INVALID REF]`, while the rest of the copy still proceeds; in
particular a cell at `B2` containing `=A1+1` copied to `C3` becomes
`=B2+1`. -/
theorem copyTo_translation :
    (∀ r c sr sc tr tc : Nat, 1 ≤ r → 1 ≤ c → 1 ≤ sr → 1 ≤ sc → 1 ≤ tr → 1 ≤ tc →
      (((r : Int) + tr - sr < 1 ∨ (c : Int) + tc - sc < 1 →
          newRefForCopy (asRef r c) (asRef sr sc) (asRef tr tc) = "[invalid ref]".data)
        ∧ (1 ≤ (r : Int) + tr - sr → 1 ≤ (c : Int) + tc - sc →
            newRefForCopy (asRef r c) (asRef sr sc) (asRef tr tc)
              = asRef ((r : Int) + tr - sr).toNat ((c : Int) + tc - sc).toNat)))
    ∧ ((copyTo copySheet "B2".data "C3".data).getCell "C3".data).value
        = .str "=B2+1".data
    ∧ ((copyTo copySheet "B2".data "A1".data).getCell "A1".data).value
        = .str "=[INVALID REF]+1".data := by
  refine ⟨?_, by decide⟩
  intro r c sr sc tr tc hr hc hsr hsc htr htc
  unfold newRefForCopy
  rw [asCoordsD_asRef r c hr hc, asCoordsD_asRef sr sc hsr hsc,
    asCoordsD_asRef tr tc htr htc]
  constructor
  · intro hneg
    rw [if_pos hneg]
  · intro h1 h2
    rw [if_neg (by omega)]

/-- Witness for C7's amended theorem: the translation rule applied at
`A1` copied from `B2` to `C3` (delta `+1,+1`), giving `B2`. -/
theorem copyTo_translation_witness :
    newRefForCopy (asRef 1 1) (asRef 2 2) (asRef 3 3)
      = asRef ((1 : Int) + 3 - 2).toNat ((1 : Int) + 3 - 2).toNat :=
  ((copyTo_translation.1 1 1 2 2 3 3 (by decide) (by decide) (by decide) (by decide)
    (by decide) (by decide)).2 (by decide) (by decide))

/-! ## Claim theorem C8 -/

set_option maxHeartbeats 16000000 in
/-- C8 (range-aware move): during `moveTo(target, movedCoordinateSet)`,
the guard deciding whether a range token is endpoint-rewritten is
exactly "every coordinate in the range's expansion is contained in
`movedCoordinateSet`" (first conjunct); when only part of the range is
moved — moving only `A1` out of `=SUM(A1:A2)+A1` — the range text is
left untouched even though the standalone `A1` occurrence in the same
formula is rewritten to `C5`; and when the whole range moves in the same
batch, the endpoints are rewritten by the move delta
(`=SUM(A1:A2)` becomes `=SUM(C5:C6)`). -/
theorem moveTo_range_rewrite :
    (∀ range : List Char, ∀ sourceRefs : List Ref, ∀ g : List (List (List Char)),
      expandRange range = some g →
      (setDiff (setFromList g.flatten) sourceRefs = [] ↔
        ∀ cell ∈ setFromList g.flatten, cell ∈ sourceRefs))
    ∧ ((moveTo moveSheetA "A1".data "C5".data ["A1".data]).getCell "B1".data).value
        = .str "=SUM(A1:A2)+C5".data
    ∧ ((moveTo moveSheetB "A1".data "C5".data
          ["A1".data, "A2".data]).getCell "B1".data).value
        = .str "=SUM(C5:C6)".data := by
  refine ⟨?_, by decide⟩
  intro range sourceRefs g _
  constructor
  · intro hempty cell hcell
    by_contra hnot
    have : cell ∈ setDiff (setFromList g.flatten) sourceRefs := by
      unfold setDiff
      rw [List.mem_filter]
      exact ⟨hcell, by simpa using hnot⟩
    rw [hempty] at this
    exact absurd this (List.not_mem_nil cell)
  · intro hall
    unfold setDiff
    rw [List.filter_eq_nil_iff]
    intro cell hcell
    simpa using hall cell hcell

/-- Witness for C8: the containment iff applied at the concrete range
`A1:A2` with the full batch. -/
theorem moveTo_range_rewrite_witness :
    setDiff (setFromList ([["A1".data], ["A2".data]] :
        List (List (List Char))).flatten) ["A1".data, "A2".data] = [] :=
  (moveTo_range_rewrite.1 ("A1".data ++ ':' :: "A2".data) ["A1".data, "A2".data]
    [["A1".data], ["A2".data]] (by decide)).mpr (by decide)

/-! ## Frame effects of the cycle check (C9) -/

/-- `s'` differs from `s` at most by materializing default (empty)
cells at coordinates `s` did not hold, and logs no evaluation. -/
def createdOnly (s s' : Sheet) : Prop :=
  s'.evalLog = s.evalLog ∧
  ∀ k, s'.findCellRaw k = s.findCellRaw k ∨
    (s.findCellRaw k = none ∧ s'.findCellRaw k = some { ref := k })

theorem createdOnly_refl (s : Sheet) : createdOnly s s :=
  ⟨rfl, fun _ => Or.inl rfl⟩

theorem createdOnly_trans {s t u : Sheet} (h1 : createdOnly s t)
    (h2 : createdOnly t u) : createdOnly s u := by
  refine ⟨h2.1.trans h1.1, fun k => ?_⟩
  rcases h2.2 k with h | ⟨hn, hs⟩
  · rw [h]; exact h1.2 k
  · rcases h1.2 k with h' | ⟨hn', hs'⟩
    · rw [h'] at hn; exact Or.inr ⟨hn, hs⟩
    · rw [hs'] at hn; cases hn

theorem find_setEntry (l : List (Ref × Cell)) (k : Ref) (c : Cell) (k' : Ref) :
    (setEntry l k c).find? (fun p => p.1 = k')
      = if k = k' then some (k, c) else l.find? (fun p => p.1 = k') := by
  induction l with
  | nil => by_cases h : k = k' <;> simp [setEntry, List.find?, h]
  | cons hd tl ih =>
    obtain ⟨a, b⟩ := hd
    by_cases hak : a = k
    · subst hak
      by_cases h : a = k' <;> simp [setEntry, List.find?, h]
    · by_cases h : k = k'
      · subst h
        simp [setEntry, List.find?, hak, ih]
      · have h' : ¬ k' = k := fun hh => h hh.symm
        by_cases h2 : a = k' <;> simp [setEntry, List.find?, hak, h2, ih, h, h']

theorem findCellRaw_setCellRaw (s : Sheet) (k : Ref) (c : Cell) (k' : Ref) :
    (s.setCellRaw k c).findCellRaw k'
      = if k = k' then some c else s.findCellRaw k' := by
  simp only [Sheet.findCellRaw, Sheet.setCellRaw, find_setEntry]
  by_cases h : k = k' <;> simp [h]

theorem getCell_of_findCellRaw {s : Sheet} {x : Ref} {c : Cell}
    (h : s.findCellRaw (asRefStr x) = some c) : s.getCell x = c := by
  unfold Sheet.getCell Sheet.findCell
  rw [h]
  rfl

theorem getCell_updateCell_self (s : Sheet) (c : Cell) (x : Ref)
    (h : c.ref = asRefStr x) : (s.updateCell c).getCell x = c := by
  unfold Sheet.getCell Sheet.findCell Sheet.updateCell
  rw [findCellRaw_setCellRaw, if_pos h]
  rfl

theorem findCellRaw_updateCell_other (s : Sheet) (c : Cell) (k : Ref)
    (h : ¬ c.ref = k) : (s.updateCell c).findCellRaw k = s.findCellRaw k := by
  unfold Sheet.updateCell
  rw [findCellRaw_setCellRaw, if_neg h]

theorem createdOnly_getCell {s s' : Sheet} (h : createdOnly s s') (x : Ref) :
    s'.getCell x = s.getCell x := by
  unfold Sheet.getCell Sheet.findCell
  rcases h.2 (asRefStr x) with h' | ⟨hn, hs⟩
  · rw [h']
  · rw [hn, hs]
    rfl

theorem createdOnly_findOrCreate (s : Sheet) (r : Ref) :
    createdOnly s (s.findOrCreateCell r).2 := by
  unfold Sheet.findOrCreateCell
  cases hf : s.findCell r with
  | some c => exact createdOnly_refl s
  | none =>
    refine ⟨rfl, fun k => ?_⟩
    rw [findCellRaw_setCellRaw]
    by_cases hk : asRefStr r = k
    · subst hk
      refine Or.inr ⟨?_, by simp⟩
      simpa [Sheet.findCell] using hf
    · simp [hk]

theorem hasCDGo_createdOnly
    (recurse : Sheet → List Ref → List Ref → Bool × Sheet × List Ref)
    (hrec : ∀ s subs visited, createdOnly s (recurse s subs visited).2.1) :
    ∀ (l : List Ref) (s : Sheet) (visited : List Ref),
      createdOnly s (hasCDGo recurse s l visited).2.1 := by
  intro l
  induction l with
  | nil => intro s visited; exact createdOnly_refl s
  | cons r rest ih =>
    intro s visited
    by_cases hv : r ∈ visited
    · have := ih s visited
      simpa [hasCDGo, hv] using this
    · rcases hr : recurse (s.findOrCreateCell r).2 ((s.findOrCreateCell r).1).subjects
          (visited ++ [r]) with ⟨b, s2, v2⟩
      have h1 : createdOnly s (s.findOrCreateCell r).2 := createdOnly_findOrCreate s r
      have h2 : createdOnly (s.findOrCreateCell r).2 s2 := by
        have h := hrec (s.findOrCreateCell r).2 ((s.findOrCreateCell r).1).subjects
          (visited ++ [r])
        rw [hr] at h; exact h
      cases b with
      | true =>
        have heq : hasCDGo recurse s (r :: rest) visited = (true, s2, v2) := by
          simp [hasCDGo, hv, hr]
        rw [heq]
        exact createdOnly_trans h1 h2
      | false =>
        have heq : hasCDGo recurse s (r :: rest) visited
            = hasCDGo recurse s2 rest v2 := by
          simp [hasCDGo, hv, hr]
        rw [heq]
        exact createdOnly_trans (createdOnly_trans h1 h2) (ih s2 v2)

theorem hasCDF_createdOnly (selfRef : Ref) :
    ∀ (fuel : Nat) (s : Sheet) (subs visited : List Ref),
      createdOnly s (hasCircularDependencyF selfRef fuel s subs visited).2.1 := by
  intro fuel
  induction fuel with
  | zero => intro s subs visited; exact createdOnly_refl s
  | succ n ih =>
    intro s subs visited
    by_cases hm : selfRef ∈ subs
    · have heq : hasCircularDependencyF selfRef (n + 1) s subs visited
          = (true, s, visited) := by
        simp [hasCircularDependencyF, hm]
      rw [heq]; exact createdOnly_refl s
    · have heq : hasCircularDependencyF selfRef (n + 1) s subs visited
        = hasCDGo (hasCircularDependencyF selfRef n) s subs visited := by
        simp [hasCircularDependencyF, hm]
      rw [heq]
      exact hasCDGo_createdOnly _ (fun s' su vi => ih s' su vi) subs s visited

/-- Shared frame lemma: a `setValue` on a changed value whose cycle check
fires (a) still updates the written cell's content to the rejected value
and marks it invalid with the message while keeping its edge sets, (b)
touches no other coordinate except by creating default empty cells, and
(c) runs no evaluation. -/
theorem setValueCyc_frame (s : Sheet) (ref : Ref) (v : JSVal)
    (hch : ¬ (s.getCell ref).value = v)
    (href : (s.getCell ref).ref = asRefStr ref)
    (hcyc : (setValueCheck s ref v).1 = true) :
    (setValue s ref v).getCell ref =
      { s.getCell ref with value := v, modified := true,
                           evaluatedValue := .nullV, invalid := true,
                           errorMessage := some "Circular dependency".data }
    ∧ (∀ k, ¬ k = asRefStr ref →
        (setValue s ref v).findCellRaw k = s.findCellRaw k ∨
          (s.findCellRaw k = none ∧
            (setValue s ref v).findCellRaw k = some { ref := k }))
    ∧ (setValue s ref v).evalLog = s.evalLog := by
  rcases hc : setValueCheck s ref v with ⟨b, s2, v2⟩
  rw [hc] at hcyc
  simp only at hcyc
  subst hcyc
  have hsv : setValue s ref v
      = s2.updateCell { s2.getCell ref with evaluatedValue := .nullV, invalid := true,
                                            errorMessage := some "Circular dependency".data } := by
    unfold setValue
    rw [if_neg hch, hc]
  have hco : createdOnly (setValueStage1 s ref v) s2 := by
    have h2 : createdOnly (setValueStage1 s ref v) (setValueCheck s ref v).2.1 :=
      hasCDF_createdOnly (s.getCell ref).ref
        (cdFuel (setValueStage1 s ref v) (newSubjectsOf v)) (setValueStage1 s ref v)
        (newSubjectsOf v) []
    rw [hc] at h2; exact h2
  have hs1 : ∀ k', (setValueStage1 s ref v).findCellRaw k'
      = if asRefStr ref = k'
          then some { s.getCell ref with value := v, modified := true, invalid := false,
                                         errorMessage := none }
          else s.findCellRaw k' := by
    intro k'
    unfold setValueStage1 Sheet.updateCell
    rw [findCellRaw_setCellRaw]
    rw [show ({ s.getCell ref with value := v, modified := true, invalid := false,
                                   errorMessage := none } : Cell).ref = asRefStr ref from href]
  have hg2 : s2.getCell ref
      = { s.getCell ref with value := v, modified := true, invalid := false,
                             errorMessage := none } := by
    rw [createdOnly_getCell hco ref]
    exact getCell_of_findCellRaw (by rw [hs1 (asRefStr ref)]; simp)
  have hrs2 : (s2.getCell ref).ref = asRefStr ref := by
    rw [hg2]; exact href
  refine ⟨?_, ?_, ?_⟩
  · rw [hsv, getCell_updateCell_self]
    · rw [hg2]
    · show (s2.getCell ref).ref = asRefStr ref
      exact hrs2
  · intro k hk
    rw [hsv, findCellRaw_updateCell_other]
    · rcases hco.2 k with h | ⟨hn, hs⟩
      · rw [h, hs1 k, if_neg (fun h => hk h.symm)]
        exact Or.inl rfl
      · rw [hs1 k, if_neg (fun h => hk h.symm)] at hn
        exact Or.inr ⟨hn, hs⟩
    · show ¬ (s2.getCell ref).ref = k
      rw [hrs2]
      exact fun h => hk h.symm
  · rw [hsv]
    exact hco.1

/-! ## Claim theorem C9 -/

set_option maxHeartbeats 2000000 in
/-- C9 counterexample: in the rejected write of `=Z9+B1+Q7` into `A1`
(where `B1` reads `A1`), `Q7` is a directly proposed subject reference —
hence reachable through the proposed new subject references — and was
absent before the write, yet no cell for it exists afterwards: the
depth-first check short-circuits upon finding the cycle through `B1`
before ever visiting `Q7`, while `Z9`, visited earlier, is materialized
as an empty default cell. -/
theorem cycle_check_short_circuit :
    "Q7".data ∈ newSubjectsOf (.str "=Z9+B1+Q7".data)
    ∧ cycleSheet.findCell "Q7".data = none
    ∧ cycleAfter.findCell "Q7".data = none
    ∧ (cycleAfter.getCell "A1".data).errorMessage = some "Circular dependency".data
    ∧ cycleSheet.findCell "Z9".data = none
    ∧ cycleAfter.findCell "Z9".data = some { ref := "Z9".data } := by
  decide

/-- C9 (amended): a `setValue` rejected for circular dependency is not
free of grid side effects, but the cells it materializes (as empty
default cells, with no edges) are exactly the coordinates the
depth-first cycle check visits before detecting the cycle — a prefix of,
and in general a proper subset of, the coordinates reachable through the
proposed new subject references (see the counterexample for a directly
proposed reference left absent).  Every pre-existing coordinate other
than the written cell is untouched, the written cell's content is still
updated to the rejected formula (marked invalid, with its prior edge
sets kept), and no evaluation is logged. -/
theorem cycle_rejected_frame (s : Sheet) (ref : Ref) (v : JSVal)
    (hch : ¬ (s.getCell ref).value = v)
    (href : (s.getCell ref).ref = asRefStr ref)
    (hcyc : (setValueCheck s ref v).1 = true) :
    (setValue s ref v).getCell ref =
      { s.getCell ref with value := v, modified := true,
                           evaluatedValue := .nullV, invalid := true,
                           errorMessage := some "Circular dependency".data }
    ∧ (∀ k, ¬ k = asRefStr ref →
        (setValue s ref v).findCellRaw k = s.findCellRaw k ∨
          (s.findCellRaw k = none ∧
            (setValue s ref v).findCellRaw k = some { ref := k }))
    ∧ (setValue s ref v).evalLog = s.evalLog :=
  setValueCyc_frame s ref v hch href hcyc

set_option maxHeartbeats 2000000 in
/-- C9 witness: the rejected cycle write on the concrete grid satisfies
the hypotheses, and by the theorem its propagation log is empty while
the written cell carries the rejected formula. -/
theorem cycle_rejected_frame_witness :
    (¬ (cycleSheet.getCell "A1".data).value = JSVal.str "=Z9+B1+Q7".data)
    ∧ (setValue cycleSheet "A1".data (.str "=Z9+B1+Q7".data)).evalLog
        = cycleSheet.evalLog :=
  ⟨by decide,
    (cycle_rejected_frame cycleSheet "A1".data (.str "=Z9+B1+Q7".data)
      (by decide) (by decide) (by decide)).2.2⟩

/-! ## Case canonicalization of reference extraction (C10) -/

/-- A grid written with the lowercase formula `=a1+1`. -/
def caseLowerSheet : Sheet :=
  sheetNew [("A1".data, .num 1), ("B1".data, .str "=a1+1".data)]

/-- The same grid written with the uppercase formula `=A1+1`. -/
def caseUpperSheet : Sheet :=
  sheetNew [("A1".data, .num 1), ("B1".data, .str "=A1+1".data)]

theorem upChar_caseTable_snd : ∀ q ∈ caseTable, upChar q.2 = q.2 := by decide

theorem upChar_idem (c : Char) : upChar (upChar c) = upChar c := by
  cases hf : caseTable.find? (fun p => p.1 = c) with
  | none =>
    have h : upChar c = c := by unfold upChar; rw [hf]
    rw [h]
    exact h
  | some p =>
    have hp : p ∈ caseTable := List.mem_of_find?_eq_some hf
    have h : upChar c = p.2 := by unfold upChar; rw [hf]
    rw [h]
    exact upChar_caseTable_snd p hp

theorem mem_foldl_setFrom {α : Type} [DecidableEq α] (x : α) :
    ∀ (l acc : List α),
      x ∈ l.foldl (fun acc x => if x ∈ acc then acc else acc ++ [x]) acc →
        x ∈ acc ∨ x ∈ l := by
  intro l
  induction l with
  | nil => intro acc h; exact Or.inl h
  | cons a tl ih =>
    intro acc h
    rcases ih _ h with h' | h'
    · simp only at h'
      by_cases ha : a ∈ acc
      · rw [if_pos ha] at h'
        exact Or.inl h'
      · rw [if_neg ha] at h'
        rcases List.mem_append.1 h' with h'' | h''
        · exact Or.inl h''
        · exact Or.inr (by simp at h''; simp [h''])
    · exact Or.inr (List.mem_cons_of_mem a h')

theorem mem_setFromList {α : Type} [DecidableEq α] {l : List α} {x : α}
    (h : x ∈ setFromList l) : x ∈ l := by
  rcases mem_foldl_setFrom x l [] h with h' | h'
  · cases h'
  · exact h'

theorem upChar_of_mem_upStr {s : List Char} {c : Char} (h : c ∈ upStr s) :
    upChar c = c := by
  rcases List.mem_map.1 h with ⟨y, _, hy⟩
  rw [← hy]
  exact upChar_idem y

set_option maxHeartbeats 2000000 in
/-- C10 (case canonicalization of references): `findRefsInFormula`
uppercases the formula text before scanning, so every extracted subject
is a coordinate-shaped token fixed by uppercasing; two formulas equal up
to letter case yield the same subject set; and concretely `=a1+1` and
`=A1+1` produce the same subject set `{A1}` and install the same
dependency edges (same `subjects` of the writing cell, same `observers`
of the referenced cell). -/
theorem findRefs_case_canonical :
    (∀ (s t : List Char), t ∈ findRefsInFormula s →
        isRefToken t = true ∧ upStr t = t)
    ∧ (∀ s1 s2 : List Char, upStr s1 = upStr s2 →
        findRefsInFormula s1 = findRefsInFormula s2)
    ∧ newSubjectsOf (.str "=a1+1".data) = newSubjectsOf (.str "=A1+1".data)
    ∧ subjectsOf caseLowerSheet "B1".data = subjectsOf caseUpperSheet "B1".data
    ∧ observersOf caseLowerSheet "A1".data = observersOf caseUpperSheet "A1".data
    ∧ subjectsOf caseLowerSheet "B1".data = ["A1".data] := by
  refine ⟨?_, ?_, by decide⟩
  · intro s t ht
    have htok : t ∈ textScanRefs (upStr s) := mem_setFromList ht
    have hfil := htok
    unfold textScanRefs at hfil
    refine ⟨List.of_mem_filter hfil, ?_⟩
    have hchunk : t ∈ chunkList (upStr s) := List.mem_of_mem_filter hfil
    have hup : ∀ c ∈ t, upChar c = c := by
      intro c hc
      have : c ∈ (chunkList (upStr s)).flatten :=
        List.mem_flatten.2 ⟨t, hchunk, hc⟩
      rw [chunkList_join] at this
      exact upChar_of_mem_upStr this
    show upStr t = t
    unfold upStr
    refine (List.map_congr_left ?_).trans (List.map_id t)
    intro a ha
    exact hup a ha
  · intro s1 s2 h
    unfold findRefsInFormula
    rw [h]

set_option maxHeartbeats 2000000 in
/-- C10 witness: `A1` is extracted from the lowercase formula `=a1+1`,
and by the theorem it is ref-shaped and fixed by uppercasing. -/
theorem findRefs_case_canonical_witness :
    "A1".data ∈ findRefsInFormula "=a1+1".data
    ∧ (isRefToken "A1".data = true ∧ upStr "A1".data = "A1".data) :=
  ⟨by decide, findRefs_case_canonical.1 "=a1+1".data "A1".data (by decide)⟩

/-! ## Completeness of the cycle check (C2) -/

/-- The dependency adjacency the cycle walk traverses: `y` is among the
stored subjects of the cell at key `x`. -/
def subjEdge (s : Sheet) (x y : Ref) : Prop :=
  y ∈ (s.getCell x).subjects

instance (s : Sheet) (x y : Ref) : Decidable (subjEdge s x y) :=
  inferInstanceAs (Decidable (y ∈ (s.getCell x).subjects))

theorem findOrCreateCell_fst (s : Sheet) (r : Ref) :
    (s.findOrCreateCell r).1 = s.getCell r := by
  unfold Sheet.findOrCreateCell Sheet.getCell
  cases hf : s.findCell r <;> simp [hf]

theorem getCell_congr (s : Sheet) {x y : Ref} (h : asRefStr x = asRefStr y) :
    s.getCell x = s.getCell y := by
  unfold Sheet.getCell Sheet.findCell
  rw [h]

theorem getCell_updateCell_other (s : Sheet) (c : Cell) (x : Ref)
    (h : ¬ c.ref = asRefStr x) : (s.updateCell c).getCell x = s.getCell x := by
  unfold Sheet.getCell Sheet.findCell
  rw [findCellRaw_updateCell_other s c _ h]

theorem hasCDGo_false_spec (selfRef : Ref) (s0 : Sheet)
    (recurse : Sheet → List Ref → List Ref → Bool × Sheet × List Ref)
    (hrec : ∀ s subs visited s' v', createdOnly s0 s →
        recurse s subs visited = (false, s', v') →
        createdOnly s0 s' ∧ visited ⊆ v' ∧ (∀ r ∈ subs, r ∈ v')
        ∧ ¬ selfRef ∈ subs
        ∧ (∀ r, r ∈ v' → ¬ r ∈ visited →
            ¬ r = selfRef ∧ ¬ selfRef ∈ (s0.getCell r).subjects
            ∧ ∀ y ∈ (s0.getCell r).subjects, y ∈ v')) :
    ∀ (l : List Ref) (s : Sheet) (visited : List Ref) (s' : Sheet) (v' : List Ref),
      createdOnly s0 s → ¬ selfRef ∈ l →
      hasCDGo recurse s l visited = (false, s', v') →
      createdOnly s0 s' ∧ visited ⊆ v' ∧ (∀ r ∈ l, r ∈ v')
      ∧ (∀ r, r ∈ v' → ¬ r ∈ visited →
          ¬ r = selfRef ∧ ¬ selfRef ∈ (s0.getCell r).subjects
          ∧ ∀ y ∈ (s0.getCell r).subjects, y ∈ v') := by
  intro l
  induction l with
  | nil =>
    intro s visited s' v' hco _ heq
    simp only [hasCDGo, Prod.mk.injEq, true_and] at heq
    obtain ⟨hs, hv⟩ := heq
    subst hs; subst hv
    exact ⟨hco, fun z hz => hz, by simp, fun r hr hnr => absurd hr hnr⟩
  | cons a rest ih =>
    intro s visited s' v' hco hl heq
    have hl' : ¬ selfRef ∈ rest := fun h => hl (List.mem_cons_of_mem a h)
    by_cases hv : a ∈ visited
    · have heq' : hasCDGo recurse s rest visited = (false, s', v') := by
        simpa [hasCDGo, hv] using heq
      obtain ⟨g1, g2, g3, g4⟩ := ih s visited s' v' hco hl' heq'
      refine ⟨g1, g2, ?_, g4⟩
      intro r hr
      rcases List.mem_cons.1 hr with h | h
      · subst h; exact g2 hv
      · exact g3 r h
    · rcases hb : recurse (s.findOrCreateCell a).2 ((s.findOrCreateCell a).1).subjects
          (visited ++ [a]) with ⟨b, s2, v2⟩
      cases b with
      | true => simp [hasCDGo, hv, hb] at heq
      | false =>
        have heq' : hasCDGo recurse s2 rest v2 = (false, s', v') := by
          simpa [hasCDGo, hv, hb] using heq
        have hco2 : createdOnly s0 (s.findOrCreateCell a).2 :=
          createdOnly_trans hco (createdOnly_findOrCreate s a)
        obtain ⟨p1, p2, p3, p4, p5⟩ := hrec _ _ _ _ _ hco2 hb
        obtain ⟨q1, q2, q3, q4⟩ := ih s2 v2 s' v' p1 hl' heq'
        have hsubj : ((s.findOrCreateCell a).1).subjects = (s0.getCell a).subjects := by
          rw [findOrCreateCell_fst, createdOnly_getCell hco a]
        rw [hsubj] at p3 p4
        have hav : a ∈ v2 := p2 (by simp)
        refine ⟨q1, ?_, ?_, ?_⟩
        · intro z hz
          exact q2 (p2 (List.mem_append_left _ hz))
        · intro r hr
          rcases List.mem_cons.1 hr with h | h
          · subst h; exact q2 hav
          · exact q3 r h
        · intro r hrv hrnv
          by_cases hr2 : r ∈ v2
          · by_cases hrva : r ∈ visited ++ [a]
            · have hra : r = a := by
                rcases List.mem_append.1 hrva with h | h
                · exact absurd h hrnv
                · simpa using h
              subst hra
              refine ⟨?_, p4, fun y hy => q2 (p3 y hy)⟩
              intro h
              exact hl (by rw [← h]; exact List.mem_cons_self r rest)
            · obtain ⟨c1, c2, c3⟩ := p5 r hr2 hrva
              exact ⟨c1, c2, fun y hy => q2 (c3 y hy)⟩
          · exact q4 r hrv hr2

theorem hasCDF_false_spec (selfRef : Ref) (s0 : Sheet) :
    ∀ (fuel : Nat) (s : Sheet) (subs visited : List Ref) (s' : Sheet) (v' : List Ref),
      createdOnly s0 s →
      hasCircularDependencyF selfRef fuel s subs visited = (false, s', v') →
      createdOnly s0 s' ∧ visited ⊆ v' ∧ (∀ r ∈ subs, r ∈ v')
      ∧ ¬ selfRef ∈ subs
      ∧ (∀ r, r ∈ v' → ¬ r ∈ visited →
          ¬ r = selfRef ∧ ¬ selfRef ∈ (s0.getCell r).subjects
          ∧ ∀ y ∈ (s0.getCell r).subjects, y ∈ v') := by
  intro fuel
  induction fuel with
  | zero =>
    intro s subs visited s' v' hco heq
    simp [hasCircularDependencyF] at heq
  | succ n ih =>
    intro s subs visited s' v' hco heq
    by_cases hm : selfRef ∈ subs
    · simp [hasCircularDependencyF, hm] at heq
    · have heq' : hasCDGo (hasCircularDependencyF selfRef n) s subs visited
          = (false, s', v') := by
        simpa [hasCircularDependencyF, hm] using heq
      obtain ⟨g1, g2, g3, g4⟩ := hasCDGo_false_spec selfRef s0 _
        (fun s su vi t w hc he => ih s su vi t w hc he) subs s visited s' v' hco hm heq'
      exact ⟨g1, g2, g3, hm, g4⟩

/-- Completeness of the depth-first cycle walk: a reference in `subs`
from which the written cell's own key is reachable along stored subject
edges forces the check to answer `true`, at every fuel (fuel exhaustion
only ever errs towards `true`). -/
theorem hasCDF_cyclic_true (selfRef : Ref) (fuel : Nat) (s : Sheet) (subs : List Ref)
    (r0 : Ref) (hr0 : r0 ∈ subs)
    (hpath : Relation.ReflTransGen (subjEdge s) r0 selfRef) :
    (hasCircularDependencyF selfRef fuel s subs []).1 = true := by
  rcases hres : hasCircularDependencyF selfRef fuel s subs [] with ⟨b, s', v'⟩
  cases b with
  | true => rfl
  | false =>
    exfalso
    obtain ⟨f1, f2, f3, f4, f5⟩ :=
      hasCDF_false_spec selfRef s fuel s subs [] s' v' (createdOnly_refl s) hres
    have key : ∀ x, Relation.ReflTransGen (subjEdge s) x selfRef → x ∈ v' → False := by
      intro x hx
      induction hx using Relation.ReflTransGen.head_induction_on with
      | refl =>
        intro hmem
        exact (f5 selfRef hmem (by simp)).1 rfl
      | head hstep htail ih =>
        intro hmem
        obtain ⟨_, _, hsub⟩ := f5 _ hmem (by simp)
        exact ih (hsub _ hstep)
    exact key r0 hpath (f3 r0 hr0)

theorem subjects_setValueStage1 (s : Sheet) (ref : Ref) (v : JSVal)
    (href : (s.getCell ref).ref = asRefStr ref) (x : Ref) :
    ((setValueStage1 s ref v).getCell x).subjects = (s.getCell x).subjects := by
  unfold setValueStage1
  by_cases hx : asRefStr ref = asRefStr x
  · rw [getCell_updateCell_self]
    · show (s.getCell ref).subjects = (s.getCell x).subjects
      rw [getCell_congr s hx]
    · show (s.getCell ref).ref = asRefStr x
      rw [href]; exact hx
  · rw [getCell_updateCell_other]
    show ¬ (s.getCell ref).ref = asRefStr x
    rw [href]; exact hx

/-! ## Claim theorem C2 -/

/-- C2 (cycle rejection): writing a value `v` whose formula references
lead back — directly (a reflexive step of the path) or transitively
along stored subject edges — to the written cell's own key leaves that
cell invalid with `"Circular dependency"` and `null` evaluated value,
leaves its prior subject edge set unchanged (the proposed subjects are
not committed), changes no cell's observer set, and logs no
evaluation. -/
theorem setValue_circular_rejects (s : Sheet) (ref : Ref) (v : JSVal)
    (hch : ¬ (s.getCell ref).value = v)
    (href : (s.getCell ref).ref = asRefStr ref)
    (r0 : Ref) (hr0 : r0 ∈ newSubjectsOf v)
    (hpath : Relation.ReflTransGen (subjEdge s) r0 (asRefStr ref)) :
    ((setValue s ref v).getCell ref).invalid = true
    ∧ ((setValue s ref v).getCell ref).errorMessage = some "Circular dependency".data
    ∧ ((setValue s ref v).getCell ref).evaluatedValue = .nullV
    ∧ ((setValue s ref v).getCell ref).subjects = (s.getCell ref).subjects
    ∧ (∀ x, observersOf (setValue s ref v) x = observersOf s x)
    ∧ (setValue s ref v).evalLog = s.evalLog := by
  have hstep : ∀ a b, subjEdge s a b → subjEdge (setValueStage1 s ref v) a b := by
    intro a b h
    show b ∈ ((setValueStage1 s ref v).getCell a).subjects
    rw [subjects_setValueStage1 s ref v href a]
    exact h
  have hpath2 : Relation.ReflTransGen (subjEdge (setValueStage1 s ref v)) r0 (asRefStr ref) :=
    Relation.ReflTransGen.mono hstep hpath
  rw [← href] at hpath2
  have hcyc : (setValueCheck s ref v).1 = true := by
    unfold setValueCheck
    exact hasCDF_cyclic_true (s.getCell ref).ref _ (setValueStage1 s ref v)
      (newSubjectsOf v) r0 hr0 hpath2
  obtain ⟨hcell, hothers, hlog⟩ := setValueCyc_frame s ref v hch href hcyc
  refine ⟨by rw [hcell], by rw [hcell], by rw [hcell], by rw [hcell], ?_, hlog⟩
  intro x
  by_cases hx : asRefStr x = asRefStr ref
  · unfold observersOf
    rw [getCell_congr (setValue s ref v) hx, getCell_congr s hx, hcell]
  · unfold observersOf Sheet.getCell Sheet.findCell
    rcases hothers (asRefStr x) hx with h | ⟨hn, hs⟩
    · rw [h]
    · rw [hn, hs]
      rfl

/-- C2 witness: the concrete rejected write `=Z9+B1+Q7` into `A1`
(with `B1` reading `A1`): `B1` is a proposed subject from which `A1` is
reachable in one step, and the written cell ends invalid. -/
theorem setValue_circular_rejects_witness :
    "B1".data ∈ newSubjectsOf (.str "=Z9+B1+Q7".data)
    ∧ ((setValue cycleSheet "A1".data (.str "=Z9+B1+Q7".data)).getCell "A1".data).invalid
        = true :=
  ⟨by decide,
    (setValue_circular_rejects cycleSheet "A1".data (.str "=Z9+B1+Q7".data)
      (by decide) (by decide) "B1".data (by decide)
      (Relation.ReflTransGen.single (by decide))).1⟩

end SpreadsheetSpec
